import Mathlib

/-!
Shallow embedding of `pkg/controller/multicluster.go` (kismatic).

The Go code is a reconciliation loop (`multiClusterController.Run`) that
merges three event sources — a store watch stream, a periodic ticker, and
context cancellation — and maintains `clusterControllers`, a map from
cluster name to a buffered notification channel (capacity
`clusterControllerNotificationBuffer = 10`).  Workers (`clusterController`
goroutines) are external: the model tracks only the channels the loop owns
and the primitive channel operations it performs (successful buffered
send, dropped send on a full buffer, close), as an explicit trace.

Channels are modelled by an id (an index into an ever-growing list of
channel states); a channel state records how many undelivered
notifications it buffers, whether it has been closed, and its capacity.
The registry is an association list with Go-map semantics (lookup /
assign / delete).  Filesystem and executor construction
(`newClusterController`) are modelled against an environment of oracles,
with the performed effects recorded as a trace.
-/

namespace Kismatic

/-- Modelled from the spec: `store.Cluster` is not under `src/`; per the
spec it carries an opaque specification payload (`ClusterSpec`) that the
loop never interprets, so the payload is modelled as an opaque `Nat`. -/
structure Cluster where
  spec : Nat
deriving DecidableEq

/-- The raw bytes of a watch event value (`resp.Value`).  `Option` models
Go's nil slice (`nil` marks deletion); a present value either decodes to a
`Cluster` or is garbage that fails `json.Unmarshal`. -/
inductive WireValue where
  | good (c : Cluster)
  | bad
deriving DecidableEq

/-- `json.Unmarshal(resp.Value, &cluster)`.  Unmarshaling a nil byte slice
fails in Go ("unexpected end of JSON input"), hence `none ↦ error`. -/
def jsonUnmarshal : Option WireValue → Except Unit Cluster
  | none => Except.error ()
  | some (WireValue.good c) => Except.ok c
  | some WireValue.bad => Except.error ()

/-- `const clusterControllerNotificationBuffer = 10`. -/
def clusterControllerNotificationBuffer : Nat := 10

/-- The state of one notification channel: buffered (undelivered)
notifications, whether `close` has been called, and its capacity. -/
structure ChanState where
  pending : Nat
  closed : Bool
  cap : Nat
deriving DecidableEq

/-- `make(chan struct{}, clusterControllerNotificationBuffer)`. -/
def mkChan : ChanState :=
  { pending := 0, closed := false, cap := clusterControllerNotificationBuffer }

/-- A primitive channel operation performed by the loop, recorded in the
trace: a successful buffered send, a send dropped because the buffer was
full, or a close. -/
inductive ChanOp where
  | send (ch : Nat)
  | drop (ch : Nat)
  | close (ch : Nat)
deriving DecidableEq

/-- Log lines emitted by the loop (contents abstracted to their call
site). -/
inductive LogMsg where
  | started
  | tickMsg
  | getAllError
  | unmarshalError (cluster : String)
  | factoryError (cluster : String)
  | bufferFull (cluster : String)
  | stopping
deriving DecidableEq

/-- A filesystem / construction effect performed by
`newClusterController`, recorded in order. -/
inductive FsOp where
  | mkdir (path : String) (perm : Nat)
  | createFile (path : String)
  | mkExec (clusterName : String) (dir : String) (logFile : Nat)
deriving DecidableEq

/-- The environment the controller runs against: the configured assets
root and oracles for `os.MkdirAll`, `os.Create` and the injected
`ExecutorCreator` (file and executor handles are opaque `Nat`s). -/
structure Env where
  assetsDir : String
  mkdirAll : String → Except String Unit
  createFile : String → Except String Nat
  newExecutor : String → String → Nat → Except String Nat

/-- Modelled from the spec: `AssetsDir.ForCluster` is not under `src/`;
per the spec the workspace is "one subdirectory per cluster name under a
configured root". -/
def forCluster (root clusterName : String) : String :=
  root ++ "/" ++ clusterName

/-- `filepath.Join` for the one call site (`dir`, "kismatic.log"). -/
def joinPath (dir file : String) : String :=
  dir ++ "/" ++ file

/-- The `clusterController` struct built by `newClusterController`.
External handles the model cannot inspect (`log`, `clusterStore`,
`newProvisioner`) are `Unit`. -/
structure clusterController where
  log : Unit
  clusterName : String
  clusterSpec : Nat
  clusterAssetsDir : String
  logFile : Nat
  executor : Nat
  clusterStore : Unit
  newProvisioner : Unit
deriving DecidableEq

/-- `multiClusterController.newClusterController`: create the cluster's
assets dir (mode 0700), create `kismatic.log` inside it, construct the
executor bound to that dir and log file.  Returns the result together
with the trace of effects actually performed. -/
def newClusterController (env : Env) (clusterName : String) (cluster : Cluster) :
    Except String clusterController × List FsOp :=
  let clusterAssetsDir := forCluster env.assetsDir clusterName
  match env.mkdirAll clusterAssetsDir with
  | Except.error e =>
    (Except.error ("error creating assets directory: " ++ e),
     [FsOp.mkdir clusterAssetsDir 0o700])
  | Except.ok _ =>
    let logPath := joinPath clusterAssetsDir "kismatic.log"
    match env.createFile logPath with
    | Except.error e =>
      (Except.error ("error creating log file: " ++ e),
       [FsOp.mkdir clusterAssetsDir 0o700, FsOp.createFile logPath])
    | Except.ok logFile =>
      match env.newExecutor clusterName (forCluster env.assetsDir clusterName) logFile with
      | Except.error e =>
        (Except.error ("error creating executor: " ++ e),
         [FsOp.mkdir clusterAssetsDir 0o700, FsOp.createFile logPath,
          FsOp.mkExec clusterName (forCluster env.assetsDir clusterName) logFile])
      | Except.ok executor =>
        (Except.ok
          { log := (), clusterName := clusterName, clusterSpec := cluster.spec,
            clusterAssetsDir := clusterAssetsDir, logFile := logFile,
            executor := executor, clusterStore := (), newProvisioner := () },
         [FsOp.mkdir clusterAssetsDir 0o700, FsOp.createFile logPath,
          FsOp.mkExec clusterName (forCluster env.assetsDir clusterName) logFile])

/-- Whether `newClusterController` succeeds for this name/spec under the
environment. -/
def factoryOk (env : Env) (clusterName : String) (cluster : Cluster) : Bool :=
  match (newClusterController env clusterName cluster).1 with
  | Except.ok _ => true
  | Except.error _ => false

/-! Association-list operations with Go-map semantics. -/

/-- Go map lookup `m[k]` (first matching key). -/
def lookupA {β : Type} : List (String × β) → String → Option β
  | [], _ => none
  | (k, v) :: rest, key => if k = key then some v else lookupA rest key

/-- Go map assignment `m[k] = v` (replace if present, else append). -/
def insertA {β : Type} : List (String × β) → String → β → List (String × β)
  | [], key, v => [(key, v)]
  | (k, w) :: rest, key, v =>
    if k = key then (key, v) :: rest else (k, w) :: insertA rest key v

/-- Go map `delete(m, k)`. -/
def eraseA {β : Type} : List (String × β) → String → List (String × β)
  | [], _ => []
  | (k, w) :: rest, key =>
    if k = key then eraseA rest key else (k, w) :: eraseA rest key

/-- The loop's mutable state: `mcc.clusterControllers` (cluster name →
channel id) and the states of every channel ever created (the id is the
index; a fresh channel gets id `chans.length`). -/
structure MccState where
  registry : List (String × Nat)
  chans : List ChanState
deriving DecidableEq

/-- The non-blocking send
`select { case ch <- struct{}{}: default: log(...) }`:
buffer below capacity buffers the notification, otherwise it is dropped. -/
def trySend (chans : List ChanState) (ch : Nat) : List ChanState × ChanOp :=
  match chans.get? ch with
  | some st =>
    if st.pending < st.cap then
      (chans.set ch { st with pending := st.pending + 1 }, ChanOp.send ch)
    else (chans, ChanOp.drop ch)
  | none => (chans, ChanOp.drop ch)

/-- `close(ch)`. -/
def closeCh (chans : List ChanState) (ch : Nat) : List ChanState :=
  match chans.get? ch with
  | some st => chans.set ch { st with closed := true }
  | none => chans

/-- `for _, v := range mcc.clusterControllers { close(v) }`. -/
def closeAll : List (String × Nat) → List ChanState → List ChanState
  | [], chans => chans
  | (_, ch) :: rest, chans => closeAll rest (closeCh chans ch)

/-- The channel exists and has not been closed. -/
def chanOpen (chans : List ChanState) (ch : Nat) : Bool :=
  match chans.get? ch with
  | some st => !st.closed
  | none => false

/-- The channel exists and has been closed. -/
def chClosed (chans : List ChanState) (ch : Nat) : Bool :=
  match chans.get? ch with
  | some st => st.closed
  | none => false

/-- One arrival at the loop's `select`: a watch response `{Key, Value}`, a
ticker fire carrying the outcome of the `GetAll` snapshot this tick will
observe (`none` = snapshot error), or context cancellation. -/
inductive Event where
  | watch (key : String) (value : Option WireValue)
  | tick (snapshot : Option (List (String × Cluster)))
  | shutdown
deriving DecidableEq

/-- The outcome of processing one event: the new state, the channel
operations performed (in order), the log lines, the filesystem effects of
any factory invocation, and whether the loop returned. -/
structure StepResult where
  state : MccState
  ops : List ChanOp
  logs : List LogMsg
  fsOps : List FsOp
  returned : Bool
deriving DecidableEq

/-- The `case resp := <-watch` arm of `Run`. -/
def handleWatch (env : Env) (s : MccState) (key : String) (value : Option WireValue) :
    StepResult :=
  match lookupA s.registry key, value with
  | some ch, none =>
    -- Stop the cluster controller if the cluster has been deleted
    { state := { registry := eraseA s.registry key, chans := closeCh s.chans ch },
      ops := [ChanOp.close ch], logs := [], fsOps := [], returned := false }
  | some ch, some _ =>
    -- already tracked: best-effort notification only
    let r := trySend s.chans ch
    { state := { registry := s.registry, chans := r.1 },
      ops := [r.2],
      logs := match r.2 with | ChanOp.drop _ => [LogMsg.bufferFull key] | _ => [],
      fsOps := [], returned := false }
  | none, v =>
    -- first time we hear about this cluster
    match jsonUnmarshal v with
    | Except.error _ =>
      { state := s, ops := [], logs := [LogMsg.unmarshalError key], fsOps := [],
        returned := false }
    | Except.ok cluster =>
      match newClusterController env key cluster with
      | (Except.error _, fs) =>
        { state := s, ops := [], logs := [LogMsg.factoryError key], fsOps := fs,
          returned := false }
      | (Except.ok _, fs) =>
        let ch := s.chans.length
        let registry2 := insertA s.registry key ch
        let chans1 := s.chans ++ [mkChan]
        let r := trySend chans1 ch
        { state := { registry := registry2, chans := r.1 },
          ops := [r.2],
          logs := match r.2 with | ChanOp.drop _ => [LogMsg.bufferFull key] | _ => [],
          fsOps := fs, returned := false }

/-- Tick phase 1: make sure we have workers for all the clusters defined
in the store.  Returns (registry, chans, logs, fsOps). -/
def ensurePhase (env : Env) (registry : List (String × Nat)) (chans : List ChanState) :
    List (String × Cluster) →
      List (String × Nat) × List ChanState × List LogMsg × List FsOp
  | [] => (registry, chans, [], [])
  | (clusterName, cluster) :: rest =>
    match lookupA registry clusterName with
    | some _ => ensurePhase env registry chans rest
    | none =>
      match newClusterController env clusterName cluster with
      | (Except.error _, fs) =>
        let r := ensurePhase env registry chans rest
        (r.1, r.2.1, LogMsg.factoryError clusterName :: r.2.2.1, fs ++ r.2.2.2)
      | (Except.ok _, fs) =>
        let registry2 := insertA registry clusterName chans.length
        let chans2 := chans ++ [mkChan]
        let r := ensurePhase env registry2 chans2 rest
        (r.1, r.2.1, r.2.2.1, fs ++ r.2.2.2)

/-- Tick phase 2: remove lingering cluster controllers.  Iterates the
registry entries; an entry whose cluster is no longer defined is closed
and dropped.  Returns (registry, chans, ops). -/
def removePhase (defined : List (String × Cluster)) (chans : List ChanState) :
    List (String × Nat) → List (String × Nat) × List ChanState × List ChanOp
  | [] => ([], chans, [])
  | (clusterName, ch) :: rest =>
    if (lookupA defined clusterName).isSome then
      let r := removePhase defined chans rest
      ((clusterName, ch) :: r.1, r.2.1, r.2.2)
    else
      let r := removePhase defined (closeCh chans ch) rest
      (r.1, r.2.1, ChanOp.close ch :: r.2.2)

/-- Tick phase 3: poke each cluster controller with a best-effort
notification.  Returns (chans, ops, logs). -/
def notifyPhase (chans : List ChanState) :
    List (String × Nat) → List ChanState × List ChanOp × List LogMsg
  | [] => (chans, [], [])
  | (clusterName, ch) :: rest =>
    let r := trySend chans ch
    let rr := notifyPhase r.1 rest
    (rr.1, r.2 :: rr.2.1,
     (match r.2 with | ChanOp.drop _ => [LogMsg.bufferFull clusterName] | _ => []) ++
       rr.2.2)

/-- The `case <-ticker` arm of `Run`. -/
def handleTick (env : Env) (s : MccState) :
    Option (List (String × Cluster)) → StepResult
  | none =>
    -- GetAll failed: log and skip the tick
    { state := s, ops := [], logs := [LogMsg.tickMsg, LogMsg.getAllError],
      fsOps := [], returned := false }
  | some defined =>
    let e := ensurePhase env s.registry s.chans defined
    let rm := removePhase defined e.2.1 e.1
    let n := notifyPhase rm.2.1 rm.1
    { state := { registry := rm.1, chans := n.1 },
      ops := rm.2.2 ++ n.2.1,
      logs := LogMsg.tickMsg :: (e.2.2.1 ++ n.2.2),
      fsOps := e.2.2.2, returned := false }

/-- One iteration of `Run`'s `select`. -/
def step (env : Env) (s : MccState) : Event → StepResult
  | Event.watch key value => handleWatch env s key value
  | Event.tick snapshot => handleTick env s snapshot
  | Event.shutdown =>
    { state := { registry := s.registry, chans := closeAll s.registry s.chans },
      ops := s.registry.map (fun p => ChanOp.close p.2),
      logs := [LogMsg.stopping], fsOps := [], returned := true }

/-- The aggregate outcome of running the loop over a schedule of events. -/
structure RunResult where
  state : MccState
  ops : List ChanOp
  logs : List LogMsg
  stopped : Bool
deriving DecidableEq

/-- The `for { select { ... } }` of `Run` over a finite schedule of
arrivals: events are processed one at a time; once an arm returns
(shutdown), the remaining events are not processed. -/
def runLoop (env : Env) (s : MccState) : List Event → RunResult
  | [] => { state := s, ops := [], logs := [], stopped := false }
  | e :: rest =>
    let r := step env s e
    if r.returned then
      { state := r.state, ops := r.ops, logs := r.logs, stopped := true }
    else
      let rr := runLoop env r.state rest
      { state := rr.state, ops := r.ops ++ rr.ops, logs := r.logs ++ rr.logs,
        stopped := rr.stopped }

/-- `Run` proper: logs the start line, then runs the loop. -/
def Run (env : Env) (s : MccState) (evs : List Event) : RunResult :=
  let r := runLoop env s evs
  { r with logs := LogMsg.started :: r.logs }

/-- `op` is a notification send attempt (successful or dropped) on
channel `ch`. -/
def isSendAttempt (op : ChanOp) (ch : Nat) : Bool :=
  match op with
  | ChanOp.send c => c = ch
  | ChanOp.drop c => c = ch
  | ChanOp.close _ => false

/-- Well-formedness of the loop state: every registered channel exists
and is open, channel ids are pairwise distinct, and registry keys are
pairwise distinct (it models a Go map). -/
def WF (s : MccState) : Prop :=
  (∀ p ∈ s.registry, chanOpen s.chans p.2 = true) ∧
    (s.registry.map Prod.snd).Nodup ∧ (s.registry.map Prod.fst).Nodup

/-- The controller's initial state: empty registry, no channels. -/
def initState : MccState := { registry := [], chans := [] }

instance (s : MccState) : Decidable (WF s) := by
  unfold WF; infer_instance

/-- All channels in the pool were created with the standard buffer size. -/
def capsOk (chans : List ChanState) : Prop :=
  ∀ st ∈ chans, st.cap = clusterControllerNotificationBuffer

/-- A sample environment for concrete executions: every construction step
succeeds except for the cluster named "bad", whose assets directory
cannot be created. -/
def envSample : Env :=
  { assetsDir := "assets",
    mkdirAll := fun p => if p = "assets/bad" then Except.error "boom" else Except.ok (),
    createFile := fun _ => Except.ok 7,
    newExecutor := fun _ _ _ => Except.ok 3 }

/-! ### Lemmas about the channel primitives -/

theorem trySend_length (chans : List ChanState) (ch : Nat) :
    (trySend chans ch).1.length = chans.length := by
  unfold trySend
  split
  · split
    · simp
    · rfl
  · rfl

theorem trySend_get?_ne (chans : List ChanState) (ch i : Nat) (h : i ≠ ch) :
    (trySend chans ch).1.get? i = chans.get? i := by
  unfold trySend
  split
  · split
    · exact List.get?_set_ne _ _ fun e => h e.symm
    · rfl
  · rfl

theorem trySend_snd (chans : List ChanState) (ch : Nat) :
    (trySend chans ch).2 = ChanOp.send ch ∨ (trySend chans ch).2 = ChanOp.drop ch := by
  unfold trySend
  split
  · split
    · exact Or.inl rfl
    · exact Or.inr rfl
  · exact Or.inr rfl

theorem trySend_eq_buffered (chans : List ChanState) (ch : Nat) (st : ChanState)
    (h : chans.get? ch = some st) (hp : st.pending < st.cap) :
    trySend chans ch =
      (chans.set ch { st with pending := st.pending + 1 }, ChanOp.send ch) := by
  unfold trySend
  rw [h]
  simp [hp]

theorem trySend_eq_full (chans : List ChanState) (ch : Nat) (st : ChanState)
    (h : chans.get? ch = some st) (hp : ¬ st.pending < st.cap) :
    trySend chans ch = (chans, ChanOp.drop ch) := by
  unfold trySend
  rw [h]
  simp [hp]

theorem trySend_eq_missing (chans : List ChanState) (ch : Nat)
    (h : chans.get? ch = none) : trySend chans ch = (chans, ChanOp.drop ch) := by
  unfold trySend
  rw [h]

theorem chClosed_trySend (chans : List ChanState) (ch i : Nat) :
    chClosed (trySend chans ch).1 i = chClosed chans i := by
  rcases hg : chans.get? ch with _ | st
  · rw [trySend_eq_missing chans ch hg]
  · by_cases hp : st.pending < st.cap
    · rw [trySend_eq_buffered chans ch st hg hp]
      by_cases hic : i = ch
      · subst hic
        unfold chClosed
        rw [List.get?_set_eq_of_lt _ (List.get?_eq_some.mp hg).1, hg]
      · unfold chClosed
        rw [List.get?_set_ne _ _ fun e => hic e.symm]
    · rw [trySend_eq_full chans ch st hg hp]

theorem chanOpen_trySend (chans : List ChanState) (ch i : Nat) :
    chanOpen (trySend chans ch).1 i = chanOpen chans i := by
  rcases hg : chans.get? ch with _ | st
  · rw [trySend_eq_missing chans ch hg]
  · by_cases hp : st.pending < st.cap
    · rw [trySend_eq_buffered chans ch st hg hp]
      by_cases hic : i = ch
      · subst hic
        unfold chanOpen
        rw [List.get?_set_eq_of_lt _ (List.get?_eq_some.mp hg).1, hg]
      · unfold chanOpen
        rw [List.get?_set_ne _ _ fun e => hic e.symm]
    · rw [trySend_eq_full chans ch st hg hp]

theorem capsOk_trySend (chans : List ChanState) (ch : Nat) (h : capsOk chans) :
    capsOk (trySend chans ch).1 := by
  rcases hg : chans.get? ch with _ | st
  · rw [trySend_eq_missing chans ch hg]
    exact h
  · by_cases hp : st.pending < st.cap
    · rw [trySend_eq_buffered chans ch st hg hp]
      intro x hx
      rcases List.mem_or_eq_of_mem_set hx with hmem | rfl
      · exact h x hmem
      · exact h st (List.get?_mem hg)
    · rw [trySend_eq_full chans ch st hg hp]
      exact h

theorem closeCh_eq_some (chans : List ChanState) (ch : Nat) (st : ChanState)
    (h : chans.get? ch = some st) :
    closeCh chans ch = chans.set ch { st with closed := true } := by
  unfold closeCh
  rw [h]

theorem closeCh_eq_missing (chans : List ChanState) (ch : Nat)
    (h : chans.get? ch = none) : closeCh chans ch = chans := by
  unfold closeCh
  rw [h]

theorem closeCh_length (chans : List ChanState) (ch : Nat) :
    (closeCh chans ch).length = chans.length := by
  rcases hg : chans.get? ch with _ | st
  · rw [closeCh_eq_missing chans ch hg]
  · rw [closeCh_eq_some chans ch st hg]
    simp

theorem closeCh_get?_ne (chans : List ChanState) (ch i : Nat) (h : i ≠ ch) :
    (closeCh chans ch).get? i = chans.get? i := by
  rcases hg : chans.get? ch with _ | st
  · rw [closeCh_eq_missing chans ch hg]
  · rw [closeCh_eq_some chans ch st hg]
    exact List.get?_set_ne _ _ fun e => h e.symm

theorem chClosed_closeCh_self (chans : List ChanState) (ch : Nat)
    (h : ch < chans.length) : chClosed (closeCh chans ch) ch = true := by
  rcases hg : chans.get? ch with _ | st
  · rw [List.get?_eq_none] at hg
    omega
  · rw [closeCh_eq_some chans ch st hg]
    unfold chClosed
    rw [List.get?_set_eq_of_lt _ h]

theorem chClosed_closeCh_of (chans : List ChanState) (ch i : Nat)
    (h : chClosed chans i = true) : chClosed (closeCh chans ch) i = true := by
  by_cases hic : i = ch
  · subst hic
    apply chClosed_closeCh_self
    unfold chClosed at h
    rcases hg : chans.get? i with _ | st
    · rw [hg] at h; simp at h
    · rcases List.get?_eq_some.mp hg with ⟨hlt, _⟩
      exact hlt
  · unfold chClosed
    rw [closeCh_get?_ne chans ch i hic]
    exact h

theorem chanOpen_closeCh_ne (chans : List ChanState) (ch i : Nat) (h : i ≠ ch) :
    chanOpen (closeCh chans ch) i = chanOpen chans i := by
  unfold chanOpen
  rw [closeCh_get?_ne chans ch i h]

theorem capsOk_closeCh (chans : List ChanState) (ch : Nat) (h : capsOk chans) :
    capsOk (closeCh chans ch) := by
  unfold closeCh
  split
  · next st hst =>
    intro x hx
    rcases List.mem_or_eq_of_mem_set hx with hmem | rfl
    · exact h x hmem
    · exact h st (List.get?_mem hst)
  · exact h

theorem chClosed_append_of (chans extra : List ChanState) (i : Nat)
    (h : chClosed chans i = true) : chClosed (chans ++ extra) i = true := by
  unfold chClosed at h ⊢
  rcases hg : chans.get? i with _ | st
  · rw [hg] at h; simp at h
  · rcases List.get?_eq_some.mp hg with ⟨hlt, _⟩
    rw [List.get?_append hlt, hg]
    rw [hg] at h
    exact h

theorem chanOpen_append_of (chans extra : List ChanState) (i : Nat)
    (h : chanOpen chans i = true) : chanOpen (chans ++ extra) i = true := by
  unfold chanOpen at h ⊢
  rcases hg : chans.get? i with _ | st
  · rw [hg] at h; simp at h
  · rcases List.get?_eq_some.mp hg with ⟨hlt, _⟩
    rw [List.get?_append hlt, hg]
    rw [hg] at h
    exact h

theorem chanOpen_lt (chans : List ChanState) (i : Nat)
    (h : chanOpen chans i = true) : i < chans.length := by
  unfold chanOpen at h
  rcases hg : chans.get? i with _ | st
  · rw [hg] at h; simp at h
  · rcases List.get?_eq_some.mp hg with ⟨hlt, _⟩
    exact hlt

theorem chClosed_lt (chans : List ChanState) (i : Nat)
    (h : chClosed chans i = true) : i < chans.length := by
  unfold chClosed at h
  rcases hg : chans.get? i with _ | st
  · rw [hg] at h; simp at h
  · rcases List.get?_eq_some.mp hg with ⟨hlt, _⟩
    exact hlt

theorem chanOpen_not_chClosed (chans : List ChanState) (i : Nat)
    (ho : chanOpen chans i = true) (hc : chClosed chans i = true) : False := by
  unfold chanOpen at ho
  unfold chClosed at hc
  rcases hg : chans.get? i with _ | st
  · rw [hg] at ho; simp at ho
  · simp only [hg] at ho hc
    simp at ho
    rw [ho] at hc
    simp at hc

theorem chanOpen_append_new (chans : List ChanState) :
    chanOpen (chans ++ [mkChan]) chans.length = true := by
  unfold chanOpen
  rw [List.get?_append_right (Nat.le_refl _)]
  simp [mkChan]

theorem closeAll_length (reg : List (String × Nat)) (chans : List ChanState) :
    (closeAll reg chans).length = chans.length := by
  induction reg generalizing chans with
  | nil => rfl
  | cons p rest ih =>
    show (closeAll rest (closeCh chans p.2)).length = chans.length
    rw [ih, closeCh_length]

theorem chClosed_closeAll_of (reg : List (String × Nat)) (chans : List ChanState)
    (i : Nat) (h : chClosed chans i = true) :
    chClosed (closeAll reg chans) i = true := by
  induction reg generalizing chans with
  | nil => exact h
  | cons p rest ih =>
    exact ih (closeCh chans p.2) (chClosed_closeCh_of chans p.2 i h)

theorem chClosed_closeAll_self (reg : List (String × Nat)) (chans : List ChanState)
    (p : String × Nat) (hp : p ∈ reg) (hlt : p.2 < chans.length) :
    chClosed (closeAll reg chans) p.2 = true := by
  induction reg generalizing chans with
  | nil => cases hp
  | cons q rest ih =>
    rcases List.mem_cons.mp hp with heq | hp
    · subst heq
      exact chClosed_closeAll_of rest (closeCh chans p.2) p.2
        (chClosed_closeCh_self chans p.2 hlt)
    · exact ih (closeCh chans q.2) hp (by rw [closeCh_length]; exact hlt)

/-! ### Lemmas about the association-list (Go map) operations -/

theorem lookupA_insert {β : Type} (l : List (String × β)) (key : String) (v : β)
    (k : String) :
    lookupA (insertA l key v) k = if key = k then some v else lookupA l k := by
  induction l with
  | nil =>
    by_cases h : key = k <;> simp [insertA, lookupA, h]
  | cons p rest ih =>
    rcases p with ⟨pk, pv⟩
    by_cases hpk : pk = key
    · subst hpk
      by_cases h : pk = k <;> simp [insertA, lookupA, h]
    · by_cases h : pk = k
      · subst h
        have : ¬ key = pk := fun e => hpk e.symm
        simp [insertA, lookupA, hpk, this]
      · simp [insertA, lookupA, hpk, h, ih]

theorem lookupA_erase {β : Type} (l : List (String × β)) (key k : String) :
    lookupA (eraseA l key) k = if key = k then none else lookupA l k := by
  induction l with
  | nil => by_cases h : key = k <;> simp [eraseA, lookupA, h]
  | cons p rest ih =>
    rcases p with ⟨pk, pv⟩
    by_cases hpk : pk = key
    · subst hpk
      by_cases h : pk = k
      · subst h
        simp [eraseA, lookupA, ih]
      · simp [eraseA, lookupA, h, ih]
    · by_cases h : pk = k
      · subst h
        have : ¬ pk = key := hpk
        have h2 : ¬ key = pk := fun e => hpk e.symm
        simp [eraseA, lookupA, this, h2]
      · simp [eraseA, lookupA, hpk, h, ih]

theorem insertA_of_lookup_none {β : Type} (l : List (String × β)) (key : String)
    (v : β) (h : lookupA l key = none) : insertA l key v = l ++ [(key, v)] := by
  induction l with
  | nil => rfl
  | cons p rest ih =>
    rcases p with ⟨pk, pv⟩
    by_cases hpk : pk = key
    · subst hpk
      simp [lookupA] at h
    · simp only [lookupA, if_neg hpk] at h
      simp [insertA, hpk, ih h]

theorem lookupA_append {β : Type} (l1 l2 : List (String × β)) (k : String) :
    lookupA (l1 ++ l2) k =
      match lookupA l1 k with
      | some v => some v
      | none => lookupA l2 k := by
  induction l1 with
  | nil => simp [lookupA]
  | cons p rest ih =>
    rcases p with ⟨pk, pv⟩
    by_cases h : pk = k <;> simp [lookupA, h, ih]

theorem eraseA_sublist {β : Type} (l : List (String × β)) (key : String) :
    (eraseA l key).Sublist l := by
  induction l with
  | nil => exact List.Sublist.refl _
  | cons p rest ih =>
    rcases p with ⟨pk, pv⟩
    by_cases h : pk = key
    · simp only [eraseA, if_pos h]
      exact List.Sublist.cons (pk, pv) ih
    · simp only [eraseA, if_neg h]
      exact List.Sublist.cons₂ (pk, pv) ih

theorem lookupA_eq_none_iff {β : Type} (l : List (String × β)) (k : String) :
    lookupA l k = none ↔ k ∉ l.map Prod.fst := by
  induction l with
  | nil => simp [lookupA]
  | cons p rest ih =>
    rcases p with ⟨pk, pv⟩
    by_cases h : pk = k
    · subst h
      simp [lookupA]
    · simp only [lookupA, if_neg h, List.map_cons, List.mem_cons]
      rw [ih]
      constructor
      · intro hn hmem
        rcases hmem with he | hm
        · exact h he.symm
        · exact hn hm
      · intro hn hm
        exact hn (Or.inr hm)

theorem lookupA_isSome_of_mem {β : Type} {l : List (String × β)} {p : String × β}
    (h : p ∈ l) : (lookupA l p.1).isSome = true := by
  induction l with
  | nil => cases h
  | cons q rest ih =>
    rcases List.mem_cons.mp h with heq | hmem
    · subst heq
      rcases p with ⟨pk, pv⟩
      simp [lookupA]
    · rcases q with ⟨qk, qv⟩
      by_cases hq : qk = p.1 <;> simp [lookupA, hq, ih hmem]

theorem lookupA_mem {β : Type} {l : List (String × β)} {k : String} {v : β}
    (h : lookupA l k = some v) : (k, v) ∈ l := by
  induction l with
  | nil => simp [lookupA] at h
  | cons q rest ih =>
    rcases q with ⟨qk, qv⟩
    by_cases hq : qk = k
    · subst hq
      simp [lookupA] at h
      simp [h]
    · simp only [lookupA, if_neg hq] at h
      exact List.mem_cons_of_mem _ (ih h)

theorem nodup_snd_inj {l : List (String × Nat)} (h : (l.map Prod.snd).Nodup)
    {p q : String × Nat} (hp : p ∈ l) (hq : q ∈ l) (he : p.2 = q.2) : p = q := by
  induction l with
  | nil => cases hp
  | cons x rest ih =>
    rw [List.map_cons, List.nodup_cons] at h
    rcases List.mem_cons.mp hp with hep | hp' <;>
      rcases List.mem_cons.mp hq with heq | hq'
    · rw [hep, heq]
    · subst hep
      have hmem : q.2 ∈ List.map Prod.snd rest := List.mem_map_of_mem Prod.snd hq'
      rw [← he] at hmem
      exact absurd hmem h.1
    · subst heq
      have hmem : p.2 ∈ List.map Prod.snd rest := List.mem_map_of_mem Prod.snd hp'
      rw [he] at hmem
      exact absurd hmem h.1
    · exact ih h.2 hp' hq'

theorem nodup_fst_inj {β : Type} {l : List (String × β)}
    (h : (l.map Prod.fst).Nodup) {p q : String × β} (hp : p ∈ l) (hq : q ∈ l)
    (he : p.1 = q.1) : p = q := by
  induction l with
  | nil => cases hp
  | cons x rest ih =>
    rw [List.map_cons, List.nodup_cons] at h
    rcases List.mem_cons.mp hp with hep | hp' <;>
      rcases List.mem_cons.mp hq with heq | hq'
    · rw [hep, heq]
    · subst hep
      have hmem : q.1 ∈ List.map Prod.fst rest := List.mem_map_of_mem Prod.fst hq'
      rw [← he] at hmem
      exact absurd hmem h.1
    · subst heq
      have hmem : p.1 ∈ List.map Prod.fst rest := List.mem_map_of_mem Prod.fst hp'
      rw [he] at hmem
      exact absurd hmem h.1
    · exact ih h.2 hp' hq'

/-! ### Equation lemmas for the tick phases -/

theorem ensurePhase_cons_found (env : Env) (registry : List (String × Nat))
    (chans : List ChanState) (m : String) (d : Cluster)
    (rest : List (String × Cluster)) (ch : Nat)
    (hl : lookupA registry m = some ch) :
    ensurePhase env registry chans ((m, d) :: rest) =
      ensurePhase env registry chans rest := by
  conv_lhs => rw [ensurePhase.eq_def]
  simp only [hl]

theorem ensurePhase_cons_err (env : Env) (registry : List (String × Nat))
    (chans : List ChanState) (m : String) (d : Cluster)
    (rest : List (String × Cluster)) (e : String) (fs : List FsOp)
    (hl : lookupA registry m = none)
    (hnc : newClusterController env m d = (Except.error e, fs)) :
    ensurePhase env registry chans ((m, d) :: rest) =
      ((ensurePhase env registry chans rest).1,
       (ensurePhase env registry chans rest).2.1,
       LogMsg.factoryError m :: (ensurePhase env registry chans rest).2.2.1,
       fs ++ (ensurePhase env registry chans rest).2.2.2) := by
  conv_lhs => rw [ensurePhase.eq_def]
  simp only [hl, hnc]

theorem ensurePhase_cons_ok (env : Env) (registry : List (String × Nat))
    (chans : List ChanState) (m : String) (d : Cluster)
    (rest : List (String × Cluster)) (cc : clusterController) (fs : List FsOp)
    (hl : lookupA registry m = none)
    (hnc : newClusterController env m d = (Except.ok cc, fs)) :
    ensurePhase env registry chans ((m, d) :: rest) =
      ((ensurePhase env (insertA registry m chans.length) (chans ++ [mkChan]) rest).1,
       (ensurePhase env (insertA registry m chans.length) (chans ++ [mkChan]) rest).2.1,
       (ensurePhase env (insertA registry m chans.length) (chans ++ [mkChan]) rest).2.2.1,
       fs ++ (ensurePhase env (insertA registry m chans.length)
               (chans ++ [mkChan]) rest).2.2.2) := by
  conv_lhs => rw [ensurePhase.eq_def]
  simp only [hl, hnc]

theorem removePhase_cons_keep (defined : List (String × Cluster))
    (chans : List ChanState) (m : String) (ch : Nat) (rest : List (String × Nat))
    (h : (lookupA defined m).isSome = true) :
    removePhase defined chans ((m, ch) :: rest) =
      ((m, ch) :: (removePhase defined chans rest).1,
       (removePhase defined chans rest).2.1,
       (removePhase defined chans rest).2.2) := by
  conv_lhs => rw [removePhase.eq_def]
  simp [h]

theorem removePhase_cons_del (defined : List (String × Cluster))
    (chans : List ChanState) (m : String) (ch : Nat) (rest : List (String × Nat))
    (h : lookupA defined m = none) :
    removePhase defined chans ((m, ch) :: rest) =
      ((removePhase defined (closeCh chans ch) rest).1,
       (removePhase defined (closeCh chans ch) rest).2.1,
       ChanOp.close ch :: (removePhase defined (closeCh chans ch) rest).2.2) := by
  conv_lhs => rw [removePhase.eq_def]
  simp [h]

theorem notifyPhase_cons (chans : List ChanState) (m : String) (ch : Nat)
    (rest : List (String × Nat)) :
    notifyPhase chans ((m, ch) :: rest) =
      ((notifyPhase (trySend chans ch).1 rest).1,
       (trySend chans ch).2 :: (notifyPhase (trySend chans ch).1 rest).2.1,
       (match (trySend chans ch).2 with
        | ChanOp.drop _ => [LogMsg.bufferFull m]
        | _ => []) ++ (notifyPhase (trySend chans ch).1 rest).2.2) := rfl

/-! ### Structure of `ensurePhase` -/

/-- Adding a freshly provisioned cluster preserves well-formedness. -/
theorem WF_insert (registry : List (String × Nat)) (chans : List ChanState)
    (m : String) (hWF : WF { registry := registry, chans := chans })
    (hl : lookupA registry m = none) :
    WF { registry := registry ++ [(m, chans.length)], chans := chans ++ [mkChan] } := by
  obtain ⟨hopen, hsnd, hfst⟩ := hWF
  refine ⟨?_, ?_, ?_⟩
  · intro p hp
    rcases List.mem_append.mp hp with hmem | hmem
    · exact chanOpen_append_of chans [mkChan] p.2 (hopen p hmem)
    · rcases List.mem_singleton.mp hmem with rfl
      exact chanOpen_append_new chans
  · simp only [List.map_append, List.map_cons, List.map_nil]
    rw [List.nodup_append]
    refine ⟨hsnd, List.nodup_singleton _, ?_⟩
    intro x hx hx2
    rcases List.mem_singleton.mp hx2 with rfl
    rcases List.mem_map.mp hx with ⟨p, hp, hpx⟩
    have := chanOpen_lt chans p.2 (hopen p hp)
    omega
  · simp only [List.map_append, List.map_cons, List.map_nil]
    rw [List.nodup_append]
    refine ⟨hfst, List.nodup_singleton _, ?_⟩
    intro x hx hx2
    have heq := List.mem_singleton.mp hx2
    rw [heq] at hx
    exact (lookupA_eq_none_iff registry m).mp hl hx

/-- `ensurePhase` only appends: registry entries are appended with fresh
channel ids, channels are appended and all new ones are `mkChan`. -/
theorem ensurePhase_shape (env : Env) (defined : List (String × Cluster)) :
    ∀ (registry : List (String × Nat)) (chans : List ChanState),
      ∃ extra newcs,
        (ensurePhase env registry chans defined).1 = registry ++ extra ∧
        (ensurePhase env registry chans defined).2.1 = chans ++ newcs ∧
        (∀ p ∈ extra, chans.length ≤ p.2) ∧ (∀ c ∈ newcs, c = mkChan) := by
  induction defined with
  | nil =>
    intro registry chans
    exact ⟨[], [], by simp [ensurePhase], by simp [ensurePhase], by simp, by simp⟩
  | cons hd rest ih =>
    intro registry chans
    rcases hd with ⟨m, d⟩
    rcases hl : lookupA registry m with _ | ch
    · rcases hnc : newClusterController env m d with ⟨res, fs⟩
      cases res with
      | error e =>
        rw [ensurePhase_cons_err env registry chans m d rest e fs hl hnc]
        rcases ih registry chans with ⟨extra, newcs, h1, h2, h3, h4⟩
        exact ⟨extra, newcs, h1, h2, h3, h4⟩
      | ok cc =>
        rw [ensurePhase_cons_ok env registry chans m d rest cc fs hl hnc]
        rcases ih (insertA registry m chans.length) (chans ++ [mkChan]) with
          ⟨extra, newcs, h1, h2, h3, h4⟩
        refine ⟨(m, chans.length) :: extra, mkChan :: newcs, ?_, ?_, ?_, ?_⟩
        · rw [h1, insertA_of_lookup_none registry m chans.length hl]
          simp
        · rw [h2]; simp
        · intro p hp
          rcases List.mem_cons.mp hp with heq | hmem
          · subst heq; exact Nat.le_refl _
          · have := h3 p hmem
            simp only [List.length_append, List.length_cons, List.length_nil] at this
            omega
        · intro c hc
          rcases List.mem_cons.mp hc with heq | hmem
          · exact heq
          · exact h4 c hmem
    · rw [ensurePhase_cons_found env registry chans m d rest ch hl]
      exact ih registry chans

/-- `ensurePhase` preserves well-formedness. -/
theorem ensurePhase_WF (env : Env) (defined : List (String × Cluster)) :
    ∀ (registry : List (String × Nat)) (chans : List ChanState),
      WF { registry := registry, chans := chans } →
      WF { registry := (ensurePhase env registry chans defined).1,
           chans := (ensurePhase env registry chans defined).2.1 } := by
  induction defined with
  | nil =>
    intro registry chans hWF
    simpa [ensurePhase] using hWF
  | cons hd rest ih =>
    intro registry chans hWF
    rcases hd with ⟨m, d⟩
    rcases hl : lookupA registry m with _ | ch
    · rcases hnc : newClusterController env m d with ⟨res, fs⟩
      cases res with
      | error e =>
        rw [ensurePhase_cons_err env registry chans m d rest e fs hl hnc]
        exact ih registry chans hWF
      | ok cc =>
        rw [ensurePhase_cons_ok env registry chans m d rest cc fs hl hnc]
        have hWF2 := WF_insert registry chans m hWF hl
        rw [← insertA_of_lookup_none registry m chans.length hl] at hWF2
        exact ih (insertA registry m chans.length) (chans ++ [mkChan]) hWF2
    · rw [ensurePhase_cons_found env registry chans m d rest ch hl]
      exact ih registry chans hWF

theorem ensurePhase_lookup_some (env : Env) (defined : List (String × Cluster))
    (registry : List (String × Nat)) (chans : List ChanState) (k : String) (v : Nat)
    (h : lookupA registry k = some v) :
    lookupA (ensurePhase env registry chans defined).1 k = some v := by
  rcases ensurePhase_shape env defined registry chans with ⟨extra, newcs, h1, _, _, _⟩
  rw [h1, lookupA_append, h]

theorem ensurePhase_isSome (env : Env) (defined : List (String × Cluster))
    (registry : List (String × Nat)) (chans : List ChanState) (k : String)
    (h : (lookupA registry k).isSome = true) :
    (lookupA (ensurePhase env registry chans defined).1 k).isSome = true := by
  rcases Option.isSome_iff_exists.mp h with ⟨v, hv⟩
  rw [ensurePhase_lookup_some env defined registry chans k v hv]
  rfl

/-- A defined cluster whose factory succeeds ends up registered after
phase 1 of the tick. -/
theorem ensurePhase_registers (env : Env) (defined : List (String × Cluster)) :
    ∀ (registry : List (String × Nat)) (chans : List ChanState) (n : String)
      (c : Cluster), (n, c) ∈ defined → factoryOk env n c = true →
      (lookupA (ensurePhase env registry chans defined).1 n).isSome = true := by
  induction defined with
  | nil =>
    intro _ _ _ _ h _
    cases h
  | cons hd rest ih =>
    intro registry chans n c hmem hok
    rcases hd with ⟨m, d⟩
    rcases hl : lookupA registry m with _ | ch
    · rcases hnc : newClusterController env m d with ⟨res, fs⟩
      cases res with
      | error e =>
        rw [ensurePhase_cons_err env registry chans m d rest e fs hl hnc]
        rcases List.mem_cons.mp hmem with heq | hmem'
        · cases heq
          have hf : factoryOk env n c = false := by
            unfold factoryOk
            rw [hnc]
          rw [hf] at hok
          cases hok
        · exact ih registry chans n c hmem' hok
      | ok cc =>
        rw [ensurePhase_cons_ok env registry chans m d rest cc fs hl hnc]
        rcases List.mem_cons.mp hmem with heq | hmem'
        · cases heq
          apply ensurePhase_isSome
          rw [lookupA_insert]
          simp
        · exact ih (insertA registry m chans.length) (chans ++ [mkChan]) n c hmem' hok
    · rw [ensurePhase_cons_found env registry chans m d rest ch hl]
      rcases List.mem_cons.mp hmem with heq | hmem'
      · cases heq
        exact ensurePhase_isSome env rest registry chans n (by rw [hl]; rfl)
      · exact ih registry chans n c hmem' hok

/-- An unregistered cluster all of whose factory attempts fail stays
absent through phase 1. -/
theorem ensurePhase_absent (env : Env) (defined : List (String × Cluster)) :
    ∀ (registry : List (String × Nat)) (chans : List ChanState) (n : String),
      lookupA registry n = none →
      (∀ c, (n, c) ∈ defined → factoryOk env n c = false) →
      lookupA (ensurePhase env registry chans defined).1 n = none := by
  induction defined with
  | nil =>
    intro registry chans n h _
    simpa [ensurePhase] using h
  | cons hd rest ih =>
    intro registry chans n h hall
    rcases hd with ⟨m, d⟩
    rcases hl : lookupA registry m with _ | ch
    · rcases hnc : newClusterController env m d with ⟨res, fs⟩
      cases res with
      | error e =>
        rw [ensurePhase_cons_err env registry chans m d rest e fs hl hnc]
        exact ih registry chans n h fun c hc => hall c (List.mem_cons_of_mem _ hc)
      | ok cc =>
        rw [ensurePhase_cons_ok env registry chans m d rest cc fs hl hnc]
        by_cases hmn : m = n
        · subst hmn
          have hok : factoryOk env m d = true := by
            unfold factoryOk
            rw [hnc]
          rw [hall d (List.mem_cons_self _ _)] at hok
          cases hok
        · apply ih
          · rw [lookupA_insert]
            simp [hmn, h]
          · exact fun c hc => hall c (List.mem_cons_of_mem _ hc)
    · rw [ensurePhase_cons_found env registry chans m d rest ch hl]
      exact ih registry chans n h fun c hc => hall c (List.mem_cons_of_mem _ hc)

/-- A defined, unregistered cluster all of whose factory attempts fail
gets a factory-error log line in phase 1. -/
theorem ensurePhase_logs_failure (env : Env) (defined : List (String × Cluster)) :
    ∀ (registry : List (String × Nat)) (chans : List ChanState) (n : String)
      (c : Cluster), (n, c) ∈ defined → lookupA registry n = none →
      (∀ c', (n, c') ∈ defined → factoryOk env n c' = false) →
      LogMsg.factoryError n ∈ (ensurePhase env registry chans defined).2.2.1 := by
  induction defined with
  | nil =>
    intro _ _ _ _ h
    cases h
  | cons hd rest ih =>
    intro registry chans n c hmem h hall
    rcases hd with ⟨m, d⟩
    rcases hl : lookupA registry m with _ | ch
    · rcases hnc : newClusterController env m d with ⟨res, fs⟩
      cases res with
      | error e =>
        rw [ensurePhase_cons_err env registry chans m d rest e fs hl hnc]
        rcases List.mem_cons.mp hmem with heq | hmem'
        · cases heq
          exact List.mem_cons_self _ _
        · exact List.mem_cons_of_mem _
            (ih registry chans n c hmem' h
              fun c' hc' => hall c' (List.mem_cons_of_mem _ hc'))
      | ok cc =>
        rw [ensurePhase_cons_ok env registry chans m d rest cc fs hl hnc]
        rcases List.mem_cons.mp hmem with heq | hmem'
        · cases heq
          have hok : factoryOk env n c = true := by
            unfold factoryOk
            rw [hnc]
          rw [hall c (List.mem_cons_self _ _)] at hok
          cases hok
        · by_cases hmn : m = n
          · subst hmn
            have hok : factoryOk env m d = true := by
              unfold factoryOk
              rw [hnc]
            rw [hall d (List.mem_cons_self _ _)] at hok
            cases hok
          · apply ih (insertA registry m chans.length) (chans ++ [mkChan]) n c hmem'
            · rw [lookupA_insert]
              simp [hmn, h]
            · exact fun c' hc' => hall c' (List.mem_cons_of_mem _ hc')
    · rw [ensurePhase_cons_found env registry chans m d rest ch hl]
      rcases List.mem_cons.mp hmem with heq | hmem'
      · cases heq
        rw [h] at hl
        cases hl
      · exact ih registry chans n c hmem' h
          fun c' hc' => hall c' (List.mem_cons_of_mem _ hc')

theorem ensurePhase_capsOk (env : Env) (defined : List (String × Cluster))
    (registry : List (String × Nat)) (chans : List ChanState) (h : capsOk chans) :
    capsOk (ensurePhase env registry chans defined).2.1 := by
  rcases ensurePhase_shape env defined registry chans with ⟨extra, newcs, _, h2, _, h4⟩
  rw [h2]
  intro st hst
  rcases List.mem_append.mp hst with hm | hm
  · exact h st hm
  · rw [h4 st hm]
    rfl

theorem ensurePhase_chClosed (env : Env) (defined : List (String × Cluster))
    (registry : List (String × Nat)) (chans : List ChanState) (i : Nat)
    (h : chClosed chans i = true) :
    chClosed (ensurePhase env registry chans defined).2.1 i = true := by
  rcases ensurePhase_shape env defined registry chans with ⟨extra, newcs, _, h2, _, _⟩
  rw [h2]
  exact chClosed_append_of chans newcs i h

/-! ### Structure of `removePhase` -/

theorem removePhase_length (defined : List (String × Cluster)) :
    ∀ (entries : List (String × Nat)) (chans : List ChanState),
      (removePhase defined chans entries).2.1.length = chans.length := by
  intro entries
  induction entries with
  | nil => intro chans; rfl
  | cons hd rest ih =>
    intro chans
    rcases hd with ⟨m, ch⟩
    by_cases hk : (lookupA defined m).isSome = true
    · rw [removePhase_cons_keep defined chans m ch rest hk]
      exact ih chans
    · rw [removePhase_cons_del defined chans m ch rest
        (Option.not_isSome_iff_eq_none.mp hk)]
      rw [ih (closeCh chans ch), closeCh_length]

theorem removePhase_kept (defined : List (String × Cluster)) :
    ∀ (entries : List (String × Nat)) (chans : List ChanState)
      (q : String × Nat), q ∈ (removePhase defined chans entries).1 →
      q ∈ entries ∧ (lookupA defined q.1).isSome = true := by
  intro entries
  induction entries with
  | nil =>
    intro chans q hq
    cases hq
  | cons hd rest ih =>
    intro chans q hq
    rcases hd with ⟨m, ch⟩
    by_cases hk : (lookupA defined m).isSome = true
    · rw [removePhase_cons_keep defined chans m ch rest hk] at hq
      rcases List.mem_cons.mp hq with heq | hmem
    -- keep branch
      · subst heq
        exact ⟨List.mem_cons_self _ _, hk⟩
      · rcases ih chans q hmem with ⟨h1, h2⟩
        exact ⟨List.mem_cons_of_mem _ h1, h2⟩
    · rw [removePhase_cons_del defined chans m ch rest
        (Option.not_isSome_iff_eq_none.mp hk)] at hq
      rcases ih (closeCh chans ch) q hq with ⟨h1, h2⟩
      exact ⟨List.mem_cons_of_mem _ h1, h2⟩

theorem removePhase_keep_mem (defined : List (String × Cluster)) :
    ∀ (entries : List (String × Nat)) (chans : List ChanState)
      (p : String × Nat), p ∈ entries → (lookupA defined p.1).isSome = true →
      p ∈ (removePhase defined chans entries).1 := by
  intro entries
  induction entries with
  | nil =>
    intro chans p hp
    cases hp
  | cons hd rest ih =>
    intro chans p hp hsome
    rcases hd with ⟨m, ch⟩
    by_cases hk : (lookupA defined m).isSome = true
    · rw [removePhase_cons_keep defined chans m ch rest hk]
      rcases List.mem_cons.mp hp with heq | hmem
      · subst heq
        exact List.mem_cons_self _ _
      · exact List.mem_cons_of_mem _ (ih chans p hmem hsome)
    · have hnone := Option.not_isSome_iff_eq_none.mp hk
      rw [removePhase_cons_del defined chans m ch rest hnone]
      rcases List.mem_cons.mp hp with heq | hmem
      · subst heq
        rw [hnone] at hsome
        cases hsome
      · exact ih (closeCh chans ch) p hmem hsome

theorem removePhase_close_mem (defined : List (String × Cluster)) :
    ∀ (entries : List (String × Nat)) (chans : List ChanState)
      (p : String × Nat), p ∈ entries → lookupA defined p.1 = none →
      ChanOp.close p.2 ∈ (removePhase defined chans entries).2.2 := by
  intro entries
  induction entries with
  | nil =>
    intro chans p hp
    cases hp
  | cons hd rest ih =>
    intro chans p hp hnone
    rcases hd with ⟨m, ch⟩
    by_cases hk : (lookupA defined m).isSome = true
    · rw [removePhase_cons_keep defined chans m ch rest hk]
      rcases List.mem_cons.mp hp with heq | hmem
      · subst heq
        rw [hnone] at hk
        cases hk
      · exact ih chans p hmem hnone
    · rw [removePhase_cons_del defined chans m ch rest
        (Option.not_isSome_iff_eq_none.mp hk)]
      rcases List.mem_cons.mp hp with heq | hmem
      · subst heq
        exact List.mem_cons_self _ _
      · exact List.mem_cons_of_mem _ (ih (closeCh chans ch) p hmem hnone)

theorem removePhase_ops_shape (defined : List (String × Cluster)) :
    ∀ (entries : List (String × Nat)) (chans : List ChanState)
      (op : ChanOp), op ∈ (removePhase defined chans entries).2.2 →
      ∃ p, p ∈ entries ∧ op = ChanOp.close p.2 ∧ lookupA defined p.1 = none := by
  intro entries
  induction entries with
  | nil =>
    intro chans op hop
    cases hop
  | cons hd rest ih =>
    intro chans op hop
    rcases hd with ⟨m, ch⟩
    by_cases hk : (lookupA defined m).isSome = true
    · rw [removePhase_cons_keep defined chans m ch rest hk] at hop
      rcases ih chans op hop with ⟨p, h1, h2, h3⟩
      exact ⟨p, List.mem_cons_of_mem _ h1, h2, h3⟩
    · have hnone := Option.not_isSome_iff_eq_none.mp hk
      rw [removePhase_cons_del defined chans m ch rest hnone] at hop
      rcases List.mem_cons.mp hop with heq | hmem
      · exact ⟨(m, ch), List.mem_cons_self _ _, heq, hnone⟩
      · rcases ih (closeCh chans ch) op hmem with ⟨p, h1, h2, h3⟩
        exact ⟨p, List.mem_cons_of_mem _ h1, h2, h3⟩

theorem removePhase_chClosed_mono (defined : List (String × Cluster)) :
    ∀ (entries : List (String × Nat)) (chans : List ChanState) (i : Nat),
      chClosed chans i = true →
      chClosed (removePhase defined chans entries).2.1 i = true := by
  intro entries
  induction entries with
  | nil =>
    intro chans i h
    exact h
  | cons hd rest ih =>
    intro chans i h
    rcases hd with ⟨m, ch⟩
    by_cases hk : (lookupA defined m).isSome = true
    · rw [removePhase_cons_keep defined chans m ch rest hk]
      exact ih chans i h
    · rw [removePhase_cons_del defined chans m ch rest
        (Option.not_isSome_iff_eq_none.mp hk)]
      exact ih (closeCh chans ch) i (chClosed_closeCh_of chans ch i h)

theorem removePhase_get?_untouched (defined : List (String × Cluster)) :
    ∀ (entries : List (String × Nat)) (chans : List ChanState) (i : Nat),
      (∀ p ∈ entries, p.2 ≠ i) →
      (removePhase defined chans entries).2.1.get? i = chans.get? i := by
  intro entries
  induction entries with
  | nil =>
    intro chans i _
    rfl
  | cons hd rest ih =>
    intro chans i hne
    rcases hd with ⟨m, ch⟩
    by_cases hk : (lookupA defined m).isSome = true
    · rw [removePhase_cons_keep defined chans m ch rest hk]
      exact ih chans i fun p hp => hne p (List.mem_cons_of_mem _ hp)
    · rw [removePhase_cons_del defined chans m ch rest
        (Option.not_isSome_iff_eq_none.mp hk)]
      rw [ih (closeCh chans ch) i fun p hp => hne p (List.mem_cons_of_mem _ hp)]
      exact closeCh_get?_ne chans ch i fun he => hne (m, ch) (List.mem_cons_self _ _) he.symm

theorem removePhase_closed_set (defined : List (String × Cluster)) :
    ∀ (entries : List (String × Nat)) (chans : List ChanState) (c : Nat),
      (∀ p ∈ entries, p.2 < chans.length) →
      ChanOp.close c ∈ (removePhase defined chans entries).2.2 →
      chClosed (removePhase defined chans entries).2.1 c = true := by
  intro entries
  induction entries with
  | nil =>
    intro chans c _ hc
    cases hc
  | cons hd rest ih =>
    intro chans c hbound hc
    rcases hd with ⟨m, ch⟩
    by_cases hk : (lookupA defined m).isSome = true
    · rw [removePhase_cons_keep defined chans m ch rest hk] at hc ⊢
      exact ih chans c (fun p hp => hbound p (List.mem_cons_of_mem _ hp)) hc
    · have hnone := Option.not_isSome_iff_eq_none.mp hk
      rw [removePhase_cons_del defined chans m ch rest hnone] at hc ⊢
      rcases List.mem_cons.mp hc with heq | hmem
      · have hcc : c = ch := by
          injection heq
        subst hcc
        apply removePhase_chClosed_mono
        exact chClosed_closeCh_self chans c (hbound (m, c) (List.mem_cons_self _ _))
      · exact ih (closeCh chans ch) c
          (fun p hp => by rw [closeCh_length]; exact hbound p (List.mem_cons_of_mem _ hp))
          hmem

theorem removePhase_open_kept (defined : List (String × Cluster)) :
    ∀ (entries : List (String × Nat)) (chans : List ChanState),
      (entries.map Prod.snd).Nodup →
      (∀ p ∈ entries, chanOpen chans p.2 = true) →
      ∀ q ∈ (removePhase defined chans entries).1,
        chanOpen (removePhase defined chans entries).2.1 q.2 = true := by
  intro entries
  induction entries with
  | nil =>
    intro chans _ _ q hq
    cases hq
  | cons hd rest ih =>
    intro chans hnd hopen q hq
    rcases hd with ⟨m, ch⟩
    rw [List.map_cons, List.nodup_cons] at hnd
    by_cases hk : (lookupA defined m).isSome = true
    · rw [removePhase_cons_keep defined chans m ch rest hk] at hq ⊢
      rcases List.mem_cons.mp hq with heq | hmem
      · subst heq
        show chanOpen (removePhase defined chans rest).2.1 ch = true
        have huntouched := removePhase_get?_untouched defined rest chans ch
          fun p hp he => hnd.1 (by
            have hm2 : p.2 ∈ List.map Prod.snd rest := List.mem_map_of_mem Prod.snd hp
            rw [he] at hm2
            exact hm2)
        unfold chanOpen
        rw [huntouched]
        have hop := hopen (m, ch) (List.mem_cons_self _ _)
        unfold chanOpen at hop
        exact hop
      · exact ih chans hnd.2 (fun p hp => hopen p (List.mem_cons_of_mem _ hp)) q hmem
    · rw [removePhase_cons_del defined chans m ch rest
        (Option.not_isSome_iff_eq_none.mp hk)] at hq ⊢
      apply ih (closeCh chans ch) hnd.2 _ q hq
      intro p hp
      have hne : p.2 ≠ ch := fun he => hnd.1 (by
        have hm2 : p.2 ∈ List.map Prod.snd rest := List.mem_map_of_mem Prod.snd hp
        rw [he] at hm2
        exact hm2)
      rw [chanOpen_closeCh_ne chans ch p.2 hne]
      exact hopen p (List.mem_cons_of_mem _ hp)

theorem removePhase_capsOk (defined : List (String × Cluster)) :
    ∀ (entries : List (String × Nat)) (chans : List ChanState),
      capsOk chans → capsOk (removePhase defined chans entries).2.1 := by
  intro entries
  induction entries with
  | nil =>
    intro chans h
    exact h
  | cons hd rest ih =>
    intro chans h
    rcases hd with ⟨m, ch⟩
    by_cases hk : (lookupA defined m).isSome = true
    · rw [removePhase_cons_keep defined chans m ch rest hk]
      exact ih chans h
    · rw [removePhase_cons_del defined chans m ch rest
        (Option.not_isSome_iff_eq_none.mp hk)]
      exact ih (closeCh chans ch) (capsOk_closeCh chans ch h)

/-- A channel closed by phase 2 is never a kept entry's channel. -/
theorem removePhase_ops_not_kept (defined : List (String × Cluster))
    (entries : List (String × Nat)) (chans : List ChanState) (c : Nat)
    (q : String × Nat) (hnd : (entries.map Prod.snd).Nodup)
    (hc : ChanOp.close c ∈ (removePhase defined chans entries).2.2)
    (hq : q ∈ (removePhase defined chans entries).1) : q.2 ≠ c := by
  rcases removePhase_ops_shape defined entries chans _ hc with ⟨p, hpmem, hpeq, hpnone⟩
  rcases removePhase_kept defined entries chans q hq with ⟨hqmem, hqsome⟩
  intro he
  have hpc : c = p.2 := by
    injection hpeq
  have hpq : q = p := nodup_snd_inj hnd hqmem hpmem (by rw [he, hpc])
  rw [hpq, hpnone] at hqsome
  cases hqsome

theorem removePhase_sublist (defined : List (String × Cluster)) :
    ∀ (entries : List (String × Nat)) (chans : List ChanState),
      (removePhase defined chans entries).1.Sublist entries := by
  intro entries
  induction entries with
  | nil =>
    intro chans
    exact List.Sublist.refl _
  | cons hd rest ih =>
    intro chans
    rcases hd with ⟨m, ch⟩
    by_cases hk : (lookupA defined m).isSome = true
    · rw [removePhase_cons_keep defined chans m ch rest hk]
      exact (ih chans).cons₂ _
    · rw [removePhase_cons_del defined chans m ch rest
        (Option.not_isSome_iff_eq_none.mp hk)]
      exact (ih (closeCh chans ch)).cons _

/-! ### Structure of `notifyPhase` -/

theorem notifyPhase_length :
    ∀ (entries : List (String × Nat)) (chans : List ChanState),
      (notifyPhase chans entries).1.length = chans.length := by
  intro entries
  induction entries with
  | nil =>
    intro chans
    rfl
  | cons hd rest ih =>
    intro chans
    rcases hd with ⟨m, ch⟩
    rw [notifyPhase_cons]
    rw [ih (trySend chans ch).1, trySend_length]

theorem notifyPhase_chClosed :
    ∀ (entries : List (String × Nat)) (chans : List ChanState) (i : Nat),
      chClosed (notifyPhase chans entries).1 i = chClosed chans i := by
  intro entries
  induction entries with
  | nil =>
    intro chans i
    rfl
  | cons hd rest ih =>
    intro chans i
    rcases hd with ⟨m, ch⟩
    rw [notifyPhase_cons]
    rw [ih (trySend chans ch).1 i, chClosed_trySend]

theorem notifyPhase_chanOpen :
    ∀ (entries : List (String × Nat)) (chans : List ChanState) (i : Nat),
      chanOpen (notifyPhase chans entries).1 i = chanOpen chans i := by
  intro entries
  induction entries with
  | nil =>
    intro chans i
    rfl
  | cons hd rest ih =>
    intro chans i
    rcases hd with ⟨m, ch⟩
    rw [notifyPhase_cons]
    rw [ih (trySend chans ch).1 i, chanOpen_trySend]

theorem notifyPhase_capsOk :
    ∀ (entries : List (String × Nat)) (chans : List ChanState),
      capsOk chans → capsOk (notifyPhase chans entries).1 := by
  intro entries
  induction entries with
  | nil =>
    intro chans h
    exact h
  | cons hd rest ih =>
    intro chans h
    rcases hd with ⟨m, ch⟩
    rw [notifyPhase_cons]
    exact ih (trySend chans ch).1 (capsOk_trySend chans ch h)

theorem notifyPhase_ops_shape :
    ∀ (entries : List (String × Nat)) (chans : List ChanState) (op : ChanOp),
      op ∈ (notifyPhase chans entries).2.1 →
      ∃ p, p ∈ entries ∧ (op = ChanOp.send p.2 ∨ op = ChanOp.drop p.2) := by
  intro entries
  induction entries with
  | nil =>
    intro chans op hop
    cases hop
  | cons hd rest ih =>
    intro chans op hop
    rcases hd with ⟨m, ch⟩
    rw [notifyPhase_cons] at hop
    rcases List.mem_cons.mp hop with heq | hmem
    · subst heq
      exact ⟨(m, ch), List.mem_cons_self _ _, trySend_snd chans ch⟩
    · rcases ih (trySend chans ch).1 op hmem with ⟨p, h1, h2⟩
      exact ⟨p, List.mem_cons_of_mem _ h1, h2⟩

theorem notifyPhase_sends :
    ∀ (entries : List (String × Nat)) (chans : List ChanState) (p : String × Nat),
      p ∈ entries →
      ∃ op, op ∈ (notifyPhase chans entries).2.1 ∧ isSendAttempt op p.2 = true := by
  intro entries
  induction entries with
  | nil =>
    intro chans p hp
    cases hp
  | cons hd rest ih =>
    intro chans p hp
    rcases hd with ⟨m, ch⟩
    rw [notifyPhase_cons]
    rcases List.mem_cons.mp hp with heq | hmem
    · subst heq
      refine ⟨(trySend chans ch).2, List.mem_cons_self _ _, ?_⟩
      rcases trySend_snd chans ch with h | h <;> rw [h] <;> simp [isSendAttempt]
    · rcases ih (trySend chans ch).1 p hmem with ⟨op, h1, h2⟩
      exact ⟨op, List.mem_cons_of_mem _ h1, h2⟩

/-! ### Equation lemmas for `handleWatch` and `step` -/

theorem handleWatch_del (env : Env) (s : MccState) (key : String) (ch : Nat)
    (hl : lookupA s.registry key = some ch) :
    handleWatch env s key none =
      { state := { registry := eraseA s.registry key, chans := closeCh s.chans ch },
        ops := [ChanOp.close ch], logs := [], fsOps := [], returned := false } := by
  simp only [handleWatch, hl]

theorem handleWatch_notify (env : Env) (s : MccState) (key : String) (ch : Nat)
    (w : WireValue) (hl : lookupA s.registry key = some ch) :
    handleWatch env s key (some w) =
      { state := { registry := s.registry, chans := (trySend s.chans ch).1 },
        ops := [(trySend s.chans ch).2],
        logs := match (trySend s.chans ch).2 with
                | ChanOp.drop _ => [LogMsg.bufferFull key]
                | _ => [],
        fsOps := [], returned := false } := by
  simp only [handleWatch, hl]

theorem handleWatch_decode_err (env : Env) (s : MccState) (key : String)
    (v : Option WireValue) (hl : lookupA s.registry key = none)
    (hv : jsonUnmarshal v = Except.error ()) :
    handleWatch env s key v =
      { state := s, ops := [], logs := [LogMsg.unmarshalError key], fsOps := [],
        returned := false } := by
  simp only [handleWatch, hl, hv]

theorem handleWatch_factory_err (env : Env) (s : MccState) (key : String)
    (v : Option WireValue) (c : Cluster) (e : String) (fs : List FsOp)
    (hl : lookupA s.registry key = none) (hv : jsonUnmarshal v = Except.ok c)
    (hnc : newClusterController env key c = (Except.error e, fs)) :
    handleWatch env s key v =
      { state := s, ops := [], logs := [LogMsg.factoryError key], fsOps := fs,
        returned := false } := by
  simp only [handleWatch, hl, hv, hnc]

theorem handleWatch_create (env : Env) (s : MccState) (key : String)
    (v : Option WireValue) (c : Cluster) (cc : clusterController) (fs : List FsOp)
    (hl : lookupA s.registry key = none) (hv : jsonUnmarshal v = Except.ok c)
    (hnc : newClusterController env key c = (Except.ok cc, fs)) :
    handleWatch env s key v =
      { state := { registry := insertA s.registry key s.chans.length,
                   chans := (trySend (s.chans ++ [mkChan]) s.chans.length).1 },
        ops := [(trySend (s.chans ++ [mkChan]) s.chans.length).2],
        logs := match (trySend (s.chans ++ [mkChan]) s.chans.length).2 with
                | ChanOp.drop _ => [LogMsg.bufferFull key]
                | _ => [],
        fsOps := fs, returned := false } := by
  simp only [handleWatch, hl, hv, hnc]

/-- The freshly made channel is empty, so the initial notification always
lands in the buffer. -/
theorem trySend_new (chans : List ChanState) :
    trySend (chans ++ [mkChan]) chans.length =
      ((chans ++ [mkChan]).set chans.length { mkChan with pending := 1 },
       ChanOp.send chans.length) := by
  have hg : (chans ++ [mkChan]).get? chans.length = some mkChan := by
    rw [List.get?_append_right (Nat.le_refl _)]
    simp
  exact trySend_eq_buffered _ _ mkChan hg (by decide)

theorem mem_eraseA {β : Type} :
    ∀ (l : List (String × β)) (k : String) (p : String × β),
      p ∈ eraseA l k → p ∈ l ∧ p.1 ≠ k := by
  intro l
  induction l with
  | nil =>
    intro k p hp
    cases hp
  | cons hd rest ih =>
    intro k p hp
    rcases hd with ⟨hk, hv⟩
    by_cases he : hk = k
    · simp only [eraseA, if_pos he] at hp
      rcases ih k p hp with ⟨h1, h2⟩
      exact ⟨List.mem_cons_of_mem _ h1, h2⟩
    · simp only [eraseA, if_neg he] at hp
      rcases List.mem_cons.mp hp with heq | hmem
      · subst heq
        exact ⟨List.mem_cons_self _ _, he⟩
      · rcases ih k p hmem with ⟨h1, h2⟩
        exact ⟨List.mem_cons_of_mem _ h1, h2⟩

theorem capsOk_append_mkChan (chans : List ChanState) (h : capsOk chans) :
    capsOk (chans ++ [mkChan]) := by
  intro st hst
  rcases List.mem_append.mp hst with hm | hm
  · exact h st hm
  · rcases List.mem_singleton.mp hm with rfl
    rfl

theorem capsOk_closeAll :
    ∀ (reg : List (String × Nat)) (chans : List ChanState),
      capsOk chans → capsOk (closeAll reg chans) := by
  intro reg
  induction reg with
  | nil =>
    intro chans h
    exact h
  | cons p rest ih =>
    intro chans h
    exact ih (closeCh chans p.2) (capsOk_closeCh chans p.2 h)

/-! ### Per-step facts -/

/-- A channel once closed stays closed across any single event. -/
theorem step_chClosed_mono (env : Env) (s : MccState) (e : Event) (i : Nat)
    (h : chClosed s.chans i = true) :
    chClosed (step env s e).state.chans i = true := by
  cases e with
  | watch key value =>
    show chClosed (handleWatch env s key value).state.chans i = true
    rcases hl : lookupA s.registry key with _ | ch
    · cases hv : jsonUnmarshal value with
      | error u =>
        rw [handleWatch_decode_err env s key value hl (by rw [hv])]
        exact h
      | ok c =>
        rcases hnc : newClusterController env key c with ⟨res, fs⟩
        cases res with
        | error er =>
          rw [handleWatch_factory_err env s key value c er fs hl hv hnc]
          exact h
        | ok cc =>
          rw [handleWatch_create env s key value c cc fs hl hv hnc]
          show chClosed (trySend (s.chans ++ [mkChan]) s.chans.length).1 i = true
          rw [chClosed_trySend]
          exact chClosed_append_of s.chans [mkChan] i h
    · cases value with
      | none =>
        rw [handleWatch_del env s key ch hl]
        exact chClosed_closeCh_of s.chans ch i h
      | some w =>
        rw [handleWatch_notify env s key ch w hl]
        show chClosed (trySend s.chans ch).1 i = true
        rw [chClosed_trySend]
        exact h
  | tick snapshot =>
    cases snapshot with
    | none => exact h
    | some defined =>
      show chClosed (handleTick env s (some defined)).state.chans i = true
      simp only [handleTick]
      rw [notifyPhase_chClosed]
      apply removePhase_chClosed_mono
      exact ensurePhase_chClosed env defined s.registry s.chans i h
  | shutdown =>
    exact chClosed_closeAll_of s.registry s.chans i h

/-- Every channel in the pool keeps the standard capacity across a step. -/
theorem step_capsOk (env : Env) (s : MccState) (e : Event)
    (h : capsOk s.chans) : capsOk (step env s e).state.chans := by
  cases e with
  | watch key value =>
    show capsOk (handleWatch env s key value).state.chans
    rcases hl : lookupA s.registry key with _ | ch
    · cases hv : jsonUnmarshal value with
      | error u =>
        rw [handleWatch_decode_err env s key value hl (by rw [hv])]
        exact h
      | ok c =>
        rcases hnc : newClusterController env key c with ⟨res, fs⟩
        cases res with
        | error er =>
          rw [handleWatch_factory_err env s key value c er fs hl hv hnc]
          exact h
        | ok cc =>
          rw [handleWatch_create env s key value c cc fs hl hv hnc]
          exact capsOk_trySend _ _ (capsOk_append_mkChan s.chans h)
    · cases value with
      | none =>
        rw [handleWatch_del env s key ch hl]
        exact capsOk_closeCh s.chans ch h
      | some w =>
        rw [handleWatch_notify env s key ch w hl]
        exact capsOk_trySend s.chans ch h
  | tick snapshot =>
    cases snapshot with
    | none => exact h
    | some defined =>
      show capsOk (handleTick env s (some defined)).state.chans
      simp only [handleTick]
      apply notifyPhase_capsOk
      apply removePhase_capsOk
      exact ensurePhase_capsOk env defined s.registry s.chans h
  | shutdown =>
    exact capsOk_closeAll s.registry s.chans h

/-- Well-formedness is preserved by every event the loop survives. -/
theorem step_WF (env : Env) (s : MccState) (e : Event) (hWF : WF s)
    (hret : (step env s e).returned = false) : WF (step env s e).state := by
  obtain ⟨hopen, hsnd, hfst⟩ := hWF
  cases e with
  | watch key value =>
    show WF (handleWatch env s key value).state
    rcases hl : lookupA s.registry key with _ | ch
    · cases hv : jsonUnmarshal value with
      | error u =>
        rw [handleWatch_decode_err env s key value hl (by rw [hv])]
        exact ⟨hopen, hsnd, hfst⟩
      | ok c =>
        rcases hnc : newClusterController env key c with ⟨res, fs⟩
        cases res with
        | error er =>
          rw [handleWatch_factory_err env s key value c er fs hl hv hnc]
          exact ⟨hopen, hsnd, hfst⟩
        | ok cc =>
          rw [handleWatch_create env s key value c cc fs hl hv hnc]
          have hWF2 := WF_insert s.registry s.chans key ⟨hopen, hsnd, hfst⟩ hl
          rw [← insertA_of_lookup_none s.registry key s.chans.length hl] at hWF2
          obtain ⟨ho2, hs2, hf2⟩ := hWF2
          refine ⟨?_, hs2, hf2⟩
          intro p hp
          show chanOpen (trySend (s.chans ++ [mkChan]) s.chans.length).1 p.2 = true
          rw [chanOpen_trySend]
          exact ho2 p hp
    · cases value with
      | none =>
        rw [handleWatch_del env s key ch hl]
        have hchmem : (key, ch) ∈ s.registry := lookupA_mem hl
        refine ⟨?_, ?_, ?_⟩
        · intro p hp
          rcases mem_eraseA s.registry key p hp with ⟨hmem, hne⟩
          have hpch : p.2 ≠ ch := by
            intro he
            have hpe : p = (key, ch) := nodup_snd_inj hsnd hmem hchmem he
            exact hne (congrArg Prod.fst hpe)
          show chanOpen (closeCh s.chans ch) p.2 = true
          rw [chanOpen_closeCh_ne s.chans ch p.2 hpch]
          exact hopen p hmem
        · exact List.Nodup.sublist (List.Sublist.map _ (eraseA_sublist _ _)) hsnd
        · exact List.Nodup.sublist (List.Sublist.map _ (eraseA_sublist _ _)) hfst
      | some w =>
        rw [handleWatch_notify env s key ch w hl]
        refine ⟨?_, hsnd, hfst⟩
        intro p hp
        show chanOpen (trySend s.chans ch).1 p.2 = true
        rw [chanOpen_trySend]
        exact hopen p hp
  | tick snapshot =>
    cases snapshot with
    | none => exact ⟨hopen, hsnd, hfst⟩
    | some defined =>
      show WF (handleTick env s (some defined)).state
      simp only [handleTick]
      have hWF1 := ensurePhase_WF env defined s.registry s.chans ⟨hopen, hsnd, hfst⟩
      obtain ⟨ho1, hs1, hf1⟩ := hWF1
      refine ⟨?_, ?_, ?_⟩
      · intro p hp
        rw [notifyPhase_chanOpen]
        exact removePhase_open_kept defined _ _ hs1 ho1 p hp
      · exact List.Nodup.sublist (List.Sublist.map _ (removePhase_sublist _ _ _)) hs1
      · exact List.Nodup.sublist (List.Sublist.map _ (removePhase_sublist _ _ _)) hf1
  | shutdown =>
    simp [step] at hret

/-- No send is ever attempted on a channel that is already closed when
the event arrives. -/
theorem step_no_send_on_closed (env : Env) (s : MccState) (e : Event) (i : Nat)
    (hWF : WF s) (hcl : chClosed s.chans i = true) :
    ∀ op ∈ (step env s e).ops, isSendAttempt op i = false := by
  obtain ⟨hopen, hsnd, hfst⟩ := hWF
  have hreg_ne : ∀ p ∈ s.registry, p.2 ≠ i := by
    intro p hp he
    have ho := hopen p hp
    rw [he] at ho
    exact chanOpen_not_chClosed s.chans i ho hcl
  have hlt : i < s.chans.length := chClosed_lt s.chans i hcl
  cases e with
  | watch key value =>
    show ∀ op ∈ (handleWatch env s key value).ops, isSendAttempt op i = false
    rcases hl : lookupA s.registry key with _ | ch
    · cases hv : jsonUnmarshal value with
      | error u =>
        rw [handleWatch_decode_err env s key value hl (by rw [hv])]
        intro op hop
        cases hop
      | ok c =>
        rcases hnc : newClusterController env key c with ⟨res, fs⟩
        cases res with
        | error er =>
          rw [handleWatch_factory_err env s key value c er fs hl hv hnc]
          intro op hop
          cases hop
        | ok cc =>
          rw [handleWatch_create env s key value c cc fs hl hv hnc]
          intro op hop
          have heq := List.mem_singleton.mp hop
          subst heq
          have hne : s.chans.length ≠ i := by omega
          rcases trySend_snd (s.chans ++ [mkChan]) s.chans.length with h | h <;>
            rw [h] <;> simp only [isSendAttempt] <;> exact decide_eq_false hne
    · cases value with
      | none =>
        rw [handleWatch_del env s key ch hl]
        intro op hop
        have heq := List.mem_singleton.mp hop
        subst heq
        rfl
      | some w =>
        rw [handleWatch_notify env s key ch w hl]
        intro op hop
        have heq := List.mem_singleton.mp hop
        subst heq
        have hne : ch ≠ i := hreg_ne (key, ch) (lookupA_mem hl)
        rcases trySend_snd s.chans ch with h | h <;>
          rw [h] <;> simp only [isSendAttempt] <;> exact decide_eq_false hne
  | tick snapshot =>
    cases snapshot with
    | none =>
      intro op hop
      cases hop
    | some defined =>
      show ∀ op ∈ (handleTick env s (some defined)).ops, isSendAttempt op i = false
      simp only [handleTick]
      intro op hop
      rcases List.mem_append.mp hop with hA | hB
      · rcases removePhase_ops_shape defined _ _ op hA with ⟨p, _, heq, _⟩
        rw [heq]
        rfl
      · rcases notifyPhase_ops_shape _ _ op hB with ⟨p, hpmem, heq⟩
        have hp1 := (removePhase_kept defined _ _ p hpmem).1
        rcases ensurePhase_shape env defined s.registry s.chans with
          ⟨extra, newcs, h1, _, h3, _⟩
        rw [h1] at hp1
        have hne : p.2 ≠ i := by
          rcases List.mem_append.mp hp1 with hm | hm
          · exact hreg_ne p hm
          · have := h3 p hm
            omega
        rcases heq with h | h <;>
          rw [h] <;> simp only [isSendAttempt] <;> exact decide_eq_false hne
  | shutdown =>
    intro op hop
    rcases List.mem_map.mp hop with ⟨p, _, heq⟩
    rw [← heq]
    rfl

/-- Any close performed during a step leaves that channel closed in the
post-state. -/
theorem step_close_closed (env : Env) (s : MccState) (e : Event) (c : Nat)
    (hWF : WF s) (hc : ChanOp.close c ∈ (step env s e).ops) :
    chClosed (step env s e).state.chans c = true := by
  obtain ⟨hopen, hsnd, hfst⟩ := hWF
  cases e with
  | watch key value =>
    show chClosed (handleWatch env s key value).state.chans c = true
    have hc' : ChanOp.close c ∈ (handleWatch env s key value).ops := hc
    rcases hl : lookupA s.registry key with _ | ch
    · cases hv : jsonUnmarshal value with
      | error u =>
        rw [handleWatch_decode_err env s key value hl (by rw [hv])] at hc'
        cases hc'
      | ok c' =>
        rcases hnc : newClusterController env key c' with ⟨res, fs⟩
        cases res with
        | error er =>
          rw [handleWatch_factory_err env s key value c' er fs hl hv hnc] at hc'
          cases hc'
        | ok cc =>
          rw [handleWatch_create env s key value c' cc fs hl hv hnc] at hc' ⊢
          have heq := List.mem_singleton.mp hc'
          rcases trySend_snd (s.chans ++ [mkChan]) s.chans.length with h | h <;>
            rw [h] at heq <;> cases heq
    · cases value with
      | none =>
        rw [handleWatch_del env s key ch hl] at hc' ⊢
        have heq := List.mem_singleton.mp hc'
        have hcc : c = ch := by
          injection heq
        subst hcc
        have hltc : c < s.chans.length :=
          chanOpen_lt s.chans c (hopen (key, c) (lookupA_mem hl))
        exact chClosed_closeCh_self s.chans c hltc
      | some w =>
        rw [handleWatch_notify env s key ch w hl] at hc'
        have heq := List.mem_singleton.mp hc'
        rcases trySend_snd s.chans ch with h | h <;> rw [h] at heq <;> cases heq
  | tick snapshot =>
    cases snapshot with
    | none => cases hc
    | some defined =>
      have hc' : ChanOp.close c ∈ (handleTick env s (some defined)).ops := hc
      show chClosed (handleTick env s (some defined)).state.chans c = true
      simp only [handleTick] at hc' ⊢
      have hWF1 := ensurePhase_WF env defined s.registry s.chans ⟨hopen, hsnd, hfst⟩
      obtain ⟨ho1, hs1, hf1⟩ := hWF1
      rcases List.mem_append.mp hc' with hA | hB
      · rw [notifyPhase_chClosed]
        apply removePhase_closed_set defined _ _ c
        · intro p hp
          exact chanOpen_lt _ p.2 (ho1 p hp)
        · exact hA
      · rcases notifyPhase_ops_shape _ _ _ hB with ⟨p, _, heq⟩
        rcases heq with h | h <;> cases h
  | shutdown =>
    rcases List.mem_map.mp hc with ⟨p, hpmem, heq⟩
    have hcc : p.2 = c := by
      injection heq
    show chClosed (closeAll s.registry s.chans) c = true
    rw [← hcc]
    exact chClosed_closeAll_self s.registry s.chans p hpmem
      (chanOpen_lt s.chans p.2 (hopen p hpmem))

/-- Within one step's trace, every send attempt on a channel precedes any
close of that channel. -/
theorem step_ops_order (env : Env) (s : MccState) (e : Event) (hWF : WF s)
    (c : Nat) (i j : Nat) (op : ChanOp) (hij : i < j)
    (hi : (step env s e).ops.get? i = some (ChanOp.close c))
    (hj : (step env s e).ops.get? j = some op) : isSendAttempt op c = false := by
  obtain ⟨hopen, hsnd, hfst⟩ := hWF
  have hsingle : ∀ (l : List ChanOp), l.length ≤ 1 →
      ∀ (i' j' : Nat), i' < j' → l.get? j' = some op → isSendAttempt op c = false := by
    intro l hlen i' j' hij' hj'
    have hjl := (List.get?_eq_some.mp hj').1
    omega
  cases e with
  | watch key value =>
    have key_eq : step env s (Event.watch key value) = handleWatch env s key value := rfl
    rw [key_eq] at hi hj
    rcases hl : lookupA s.registry key with _ | ch
    · cases hv : jsonUnmarshal value with
      | error u =>
        rw [handleWatch_decode_err env s key value hl (by rw [hv])] at hj
        exact hsingle [] (by simp) i j hij hj
      | ok c' =>
        rcases hnc : newClusterController env key c' with ⟨res, fs⟩
        cases res with
        | error er =>
          rw [handleWatch_factory_err env s key value c' er fs hl hv hnc] at hj
          exact hsingle _ (by simp) i j hij hj
        | ok cc =>
          rw [handleWatch_create env s key value c' cc fs hl hv hnc] at hj
          exact hsingle _ (by simp) i j hij hj
    · cases value with
      | none =>
        rw [handleWatch_del env s key ch hl] at hj
        exact hsingle _ (by simp) i j hij hj
      | some w =>
        rw [handleWatch_notify env s key ch w hl] at hj
        exact hsingle _ (by simp) i j hij hj
  | tick snapshot =>
    cases snapshot with
    | none =>
      have key_eq : step env s (Event.tick none) = handleTick env s none := rfl
      rw [key_eq] at hj
      exact hsingle _ (by simp [handleTick]) i j hij hj
    | some defined =>
      have key_eq : step env s (Event.tick (some defined)) =
          handleTick env s (some defined) := rfl
      rw [key_eq] at hi hj
      simp only [handleTick] at hi hj
      have hWF1 := ensurePhase_WF env defined s.registry s.chans ⟨hopen, hsnd, hfst⟩
      obtain ⟨ho1, hs1, hf1⟩ := hWF1
      -- the close at index i lies in the removal segment
      have hiA : ChanOp.close c ∈
          (removePhase defined (ensurePhase env s.registry s.chans defined).2.1
            (ensurePhase env s.registry s.chans defined).1).2.2 := by
        have hmem := List.get?_mem hi
        rcases List.mem_append.mp hmem with hA | hB
        · exact hA
        · rcases notifyPhase_ops_shape _ _ _ hB with ⟨p, _, heq⟩
          rcases heq with h | h <;> cases h
      have hmemj := List.get?_mem hj
      rcases List.mem_append.mp hmemj with hA | hB
      · rcases removePhase_ops_shape defined _ _ op hA with ⟨p, _, heq, _⟩
        rw [heq]
        rfl
      · rcases notifyPhase_ops_shape _ _ op hB with ⟨p, hpmem, heq⟩
        have hne : p.2 ≠ c := removePhase_ops_not_kept defined _ _ c p hs1 hiA hpmem
        rcases heq with h | h <;>
          rw [h] <;> simp only [isSendAttempt] <;> exact decide_eq_false hne
  | shutdown =>
    have hmemj := List.get?_mem hj
    rcases List.mem_map.mp hmemj with ⟨p, _, heq⟩
    rw [← heq]
    rfl

/-! ### The loop over a schedule of events -/

theorem runLoop_cons_returned (env : Env) (s : MccState) (e : Event)
    (rest : List Event) (h : (step env s e).returned = true) :
    runLoop env s (e :: rest) =
      { state := (step env s e).state, ops := (step env s e).ops,
        logs := (step env s e).logs, stopped := true } := by
  simp only [runLoop, h, if_true]

theorem runLoop_cons_go (env : Env) (s : MccState) (e : Event)
    (rest : List Event) (h : (step env s e).returned = false) :
    runLoop env s (e :: rest) =
      { state := (runLoop env (step env s e).state rest).state,
        ops := (step env s e).ops ++ (runLoop env (step env s e).state rest).ops,
        logs := (step env s e).logs ++ (runLoop env (step env s e).state rest).logs,
        stopped := (runLoop env (step env s e).state rest).stopped } := by
  simp only [runLoop, h, if_false, Bool.false_eq_true]

/-- Once a channel is closed, the rest of the run attempts no send on it. -/
theorem runLoop_no_send_on_closed (env : Env) :
    ∀ (evs : List Event) (s : MccState) (i : Nat), WF s →
      chClosed s.chans i = true →
      ∀ op ∈ (runLoop env s evs).ops, isSendAttempt op i = false := by
  intro evs
  induction evs with
  | nil =>
    intro s i _ _ op hop
    cases hop
  | cons e rest ih =>
    intro s i hWF hcl op hop
    by_cases hretb : (step env s e).returned = true
    · rw [runLoop_cons_returned env s e rest hretb] at hop
      exact step_no_send_on_closed env s e i hWF hcl op hop
    · have hret' : (step env s e).returned = false := by
        cases hb : (step env s e).returned
        · rfl
        · exact absurd hb hretb
      rw [runLoop_cons_go env s e rest hret'] at hop
      rcases List.mem_append.mp hop with h1 | h2
      · exact step_no_send_on_closed env s e i hWF hcl op h1
      · exact ih (step env s e).state i (step_WF env s e hWF hret')
          (step_chClosed_mono env s e i hcl) op h2

/-- In the trace of a whole run from a well-formed state, a close of a
channel is never followed by a send attempt on that channel. -/
theorem runLoop_close_then_no_send (env : Env) :
    ∀ (evs : List Event) (s : MccState), WF s →
      ∀ (c i j : Nat) (op : ChanOp), i < j →
        (runLoop env s evs).ops.get? i = some (ChanOp.close c) →
        (runLoop env s evs).ops.get? j = some op →
        isSendAttempt op c = false := by
  intro evs
  induction evs with
  | nil =>
    intro s _ c i j op _ hi _
    simp [runLoop] at hi
  | cons e rest ih =>
    intro s hWF c i j op hij hi hj
    by_cases hretb : (step env s e).returned = true
    · rw [runLoop_cons_returned env s e rest hretb] at hi hj
      exact step_ops_order env s e hWF c i j op hij hi hj
    · have hret' : (step env s e).returned = false := by
        cases hb : (step env s e).returned
        · rfl
        · exact absurd hb hretb
      rw [runLoop_cons_go env s e rest hret'] at hi hj
      by_cases hiA : i < (step env s e).ops.length
      · rw [List.get?_append hiA] at hi
        by_cases hjA : j < (step env s e).ops.length
        · rw [List.get?_append hjA] at hj
          exact step_ops_order env s e hWF c i j op hij hi hj
        · push_neg at hjA
          rw [List.get?_append_right hjA] at hj
          have hcmem : ChanOp.close c ∈ (step env s e).ops := List.get?_mem hi
          have hclosed := step_close_closed env s e c hWF hcmem
          exact runLoop_no_send_on_closed env rest (step env s e).state c
            (step_WF env s e hWF hret') hclosed op (List.get?_mem hj)
      · push_neg at hiA
        have hjA : (step env s e).ops.length ≤ j := le_trans hiA (le_of_lt hij)
        rw [List.get?_append_right hiA] at hi
        rw [List.get?_append_right hjA] at hj
        exact ih (step env s e).state (step_WF env s e hWF hret') c
          (i - (step env s e).ops.length) (j - (step env s e).ops.length) op
          (by omega) hi hj

/-! ### The claims -/

/-- C2: on every tick whose store snapshot fetch (`GetAll`) fails, the
loop logs the error and skips the entire tick: the state (registry key
set and every channel) is exactly as before, no worker is created or
terminated, no notification is sent, no factory effect is performed, and
the loop continues. -/
theorem C2_snapshot_error_skips_tick (env : Env) (s : MccState) :
    step env s (Event.tick none) =
      { state := s, ops := [], logs := [LogMsg.tickMsg, LogMsg.getAllError],
        fsOps := [], returned := false } := rfl

/-- C10: a watch event carrying the deletion marker (nil value) for a key
NOT tracked in the registry takes the creation path, attempts to
JSON-decode the nil value, which fails, logs a decode error, and leaves
everything unchanged: no worker created or terminated, no channel
operation, no factory effect. -/
theorem C10_untracked_deletion_decode_error (env : Env) (s : MccState)
    (key : String) (hl : lookupA s.registry key = none) :
    jsonUnmarshal none = Except.error () ∧
    step env s (Event.watch key none) =
      { state := s, ops := [], logs := [LogMsg.unmarshalError key], fsOps := [],
        returned := false } :=
  ⟨rfl, handleWatch_decode_err env s key none hl rfl⟩

theorem C10_untracked_deletion_decode_error_witness :
    lookupA (MccState.mk [("a", 0)] [mkChan]).registry "b" = none ∧
    (jsonUnmarshal none = Except.error () ∧
      step envSample (MccState.mk [("a", 0)] [mkChan]) (Event.watch "b" none) =
        { state := MccState.mk [("a", 0)] [mkChan], ops := [],
          logs := [LogMsg.unmarshalError "b"], fsOps := [], returned := false }) :=
  ⟨by decide,
   C10_untracked_deletion_decode_error envSample (MccState.mk [("a", 0)] [mkChan])
     "b" (by decide)⟩

/-- C5: a watch event for an already-tracked key with a non-deletion
value attempts exactly one best-effort notification on the existing
channel and performs no other mutation: the registry is unchanged, the
factory is not invoked (no filesystem effect), every other channel is
untouched, and the tracked channel either buffers the one notification or
is left unchanged when full. -/
theorem C5_tracked_update_notifies_only (env : Env) (s : MccState) (key : String)
    (ch : Nat) (w : WireValue) (hl : lookupA s.registry key = some ch) :
    (step env s (Event.watch key (some w))).state.registry = s.registry ∧
    (step env s (Event.watch key (some w))).fsOps = [] ∧
    ((step env s (Event.watch key (some w))).ops = [ChanOp.send ch] ∨
      (step env s (Event.watch key (some w))).ops = [ChanOp.drop ch]) ∧
    (∀ i, i ≠ ch →
      (step env s (Event.watch key (some w))).state.chans.get? i = s.chans.get? i) ∧
    (∀ st, s.chans.get? ch = some st →
      (st.pending < st.cap ∧
        (step env s (Event.watch key (some w))).state.chans.get? ch =
          some { st with pending := st.pending + 1 } ∧
        (step env s (Event.watch key (some w))).ops = [ChanOp.send ch]) ∨
      (¬ st.pending < st.cap ∧
        (step env s (Event.watch key (some w))).state.chans = s.chans ∧
        (step env s (Event.watch key (some w))).ops = [ChanOp.drop ch])) ∧
    (step env s (Event.watch key (some w))).returned = false := by
  have hs : step env s (Event.watch key (some w)) = handleWatch env s key (some w) :=
    rfl
  rw [hs, handleWatch_notify env s key ch w hl]
  refine ⟨rfl, rfl, ?_, ?_, ?_, rfl⟩
  · rcases trySend_snd s.chans ch with h | h <;> rw [h]
    · exact Or.inl rfl
    · exact Or.inr rfl
  · intro i hi
    exact trySend_get?_ne s.chans ch i hi
  · intro st hst
    by_cases hp : st.pending < st.cap
    · left
      refine ⟨hp, ?_, ?_⟩
      · rw [trySend_eq_buffered s.chans ch st hst hp]
        exact List.get?_set_eq_of_lt _ (List.get?_eq_some.mp hst).1
      · rw [trySend_eq_buffered s.chans ch st hst hp]
    · right
      refine ⟨hp, ?_, ?_⟩ <;> rw [trySend_eq_full s.chans ch st hst hp]

theorem C5_tracked_update_notifies_only_witness :
    lookupA (MccState.mk [("a", 0)] [mkChan]).registry "a" = some 0 ∧
    ((step envSample (MccState.mk [("a", 0)] [mkChan])
        (Event.watch "a" (some WireValue.bad))).state.registry =
      (MccState.mk [("a", 0)] [mkChan]).registry ∧
     (step envSample (MccState.mk [("a", 0)] [mkChan])
        (Event.watch "a" (some WireValue.bad))).fsOps = []) :=
  ⟨by decide,
   have h := C5_tracked_update_notifies_only envSample
     (MccState.mk [("a", 0)] [mkChan]) "a" 0 WireValue.bad (by decide)
   ⟨h.1, h.2.1⟩⟩

/-- C6: a watch event carrying the deletion marker for a tracked key
closes that cluster's channel, removes the registry entry, sends no
notification, and leaves all other registry entries and channels
unchanged. -/
theorem C6_tracked_deletion_terminates (env : Env) (s : MccState) (key : String)
    (ch : Nat) (hl : lookupA s.registry key = some ch)
    (hlt : ch < s.chans.length) :
    step env s (Event.watch key none) =
      { state := { registry := eraseA s.registry key, chans := closeCh s.chans ch },
        ops := [ChanOp.close ch], logs := [], fsOps := [], returned := false } ∧
    lookupA (eraseA s.registry key) key = none ∧
    (∀ k, k ≠ key → lookupA (eraseA s.registry key) k = lookupA s.registry k) ∧
    chClosed (closeCh s.chans ch) ch = true ∧
    (∀ i, i ≠ ch → (closeCh s.chans ch).get? i = s.chans.get? i) ∧
    (∀ op ∈ [ChanOp.close ch], ∀ c, isSendAttempt op c = false) := by
  refine ⟨handleWatch_del env s key ch hl, ?_, ?_, ?_, ?_, ?_⟩
  · rw [lookupA_erase]
    simp
  · intro k hk
    rw [lookupA_erase]
    rw [if_neg fun e => hk e.symm]
  · exact chClosed_closeCh_self s.chans ch hlt
  · intro i hi
    exact closeCh_get?_ne s.chans ch i hi
  · intro op hop c
    have heq := List.mem_singleton.mp hop
    subst heq
    rfl

theorem C6_tracked_deletion_terminates_witness :
    lookupA (MccState.mk [("a", 0)] [mkChan]).registry "a" = some 0 ∧
    0 < (MccState.mk [("a", 0)] [mkChan]).chans.length ∧
    step envSample (MccState.mk [("a", 0)] [mkChan]) (Event.watch "a" none) =
      { state := { registry := eraseA (MccState.mk [("a", 0)] [mkChan]).registry "a",
                   chans := closeCh (MccState.mk [("a", 0)] [mkChan]).chans 0 },
        ops := [ChanOp.close 0], logs := [], fsOps := [], returned := false } :=
  ⟨by decide, by decide,
   (C6_tracked_deletion_terminates envSample (MccState.mk [("a", 0)] [mkChan]) "a" 0
     (by decide) (by decide)).1⟩

/-- C1: after any tick that completes (snapshot fetch succeeded), every
key remaining in the registry is present in that tick's snapshot; and
every previously registered key not present in the snapshot has been
terminated within that same tick — its entry removed (lookup now fails)
and its channel closed. -/
theorem C1_tick_reconciles_registry (env : Env) (s : MccState)
    (defined : List (String × Cluster)) (hWF : WF s) :
    (∀ p ∈ (step env s (Event.tick (some defined))).state.registry,
       (lookupA defined p.1).isSome = true) ∧
    (∀ p ∈ s.registry, lookupA defined p.1 = none →
       lookupA (step env s (Event.tick (some defined))).state.registry p.1 = none ∧
       ChanOp.close p.2 ∈ (step env s (Event.tick (some defined))).ops ∧
       chClosed (step env s (Event.tick (some defined))).state.chans p.2 = true) := by
  have hs : step env s (Event.tick (some defined)) = handleTick env s (some defined) :=
    rfl
  rw [hs]
  simp only [handleTick]
  obtain ⟨hopen, hsnd, hfst⟩ := hWF
  have hWF1 := ensurePhase_WF env defined s.registry s.chans ⟨hopen, hsnd, hfst⟩
  obtain ⟨ho1, hs1, hf1⟩ := hWF1
  rcases ensurePhase_shape env defined s.registry s.chans with
    ⟨extra, newcs, h1, h2, h3, h4⟩
  constructor
  · intro p hp
    exact (removePhase_kept defined _ _ p hp).2
  · intro p hp hnone
    have hp1 : p ∈ (ensurePhase env s.registry s.chans defined).1 := by
      rw [h1]
      exact List.mem_append_left _ hp
    have hclose := removePhase_close_mem defined
      (ensurePhase env s.registry s.chans defined).1
      (ensurePhase env s.registry s.chans defined).2.1 p hp1 hnone
    refine ⟨?_, List.mem_append_left _ hclose, ?_⟩
    · rw [lookupA_eq_none_iff]
      intro hmem
      rcases List.mem_map.mp hmem with ⟨q, hq, hqe⟩
      have hq2 := (removePhase_kept defined _ _ q hq).2
      rw [hqe, hnone] at hq2
      simp at hq2
    · rw [notifyPhase_chClosed]
      apply removePhase_closed_set defined _ _ p.2
      · intro q hq
        exact chanOpen_lt _ q.2 (ho1 q hq)
      · exact hclose

theorem C1_tick_reconciles_registry_witness :
    WF (MccState.mk [("a", 0)] [mkChan]) ∧
    (∀ p ∈ (step envSample (MccState.mk [("a", 0)] [mkChan])
        (Event.tick (some [("b", Cluster.mk 2)]))).state.registry,
      (lookupA [("b", Cluster.mk 2)] p.1).isSome = true) :=
  ⟨by decide,
   (C1_tick_reconciles_registry envSample (MccState.mk [("a", 0)] [mkChan])
     [("b", Cluster.mk 2)] (by decide)).1⟩

/-- C7: within a single tick, a factory failure for one cluster is logged
and only that cluster is skipped (it stays absent from the registry):
every other defined cluster whose factory succeeds ends up registered,
stale entries are still terminated, the notification sweep still covers
every registered worker, and the loop does not stop. -/
theorem C7_factory_failure_isolated (env : Env) (s : MccState)
    (defined : List (String × Cluster)) (n0 n : String) (c0 c : Cluster)
    (hkeys : (defined.map Prod.fst).Nodup)
    (h0in : (n0, c0) ∈ defined) (h0fail : factoryOk env n0 c0 = false)
    (h0un : lookupA s.registry n0 = none)
    (hin : (n, c) ∈ defined) (hok : factoryOk env n c = true) :
    lookupA (step env s (Event.tick (some defined))).state.registry n0 = none ∧
    LogMsg.factoryError n0 ∈ (step env s (Event.tick (some defined))).logs ∧
    (lookupA (step env s (Event.tick (some defined))).state.registry n).isSome
      = true ∧
    (∀ p ∈ s.registry, lookupA defined p.1 = none →
       ChanOp.close p.2 ∈ (step env s (Event.tick (some defined))).ops) ∧
    (∀ p ∈ (step env s (Event.tick (some defined))).state.registry,
       ∃ op ∈ (step env s (Event.tick (some defined))).ops,
         isSendAttempt op p.2 = true) ∧
    (step env s (Event.tick (some defined))).returned = false := by
  have hall : ∀ c', (n0, c') ∈ defined → factoryOk env n0 c' = false := by
    intro c' hc'
    have hpq : ((n0, c') : String × Cluster) = (n0, c0) :=
      nodup_fst_inj hkeys hc' h0in rfl
    have hcc : c' = c0 := congrArg Prod.snd hpq
    rw [hcc]
    exact h0fail
  have hs : step env s (Event.tick (some defined)) = handleTick env s (some defined) :=
    rfl
  rw [hs]
  simp only [handleTick]
  rcases ensurePhase_shape env defined s.registry s.chans with
    ⟨extra, newcs, h1, h2, h3, h4⟩
  refine ⟨?_, ?_, ?_, ?_, ?_, trivial⟩
  · have habs := ensurePhase_absent env defined s.registry s.chans n0 h0un hall
    rw [lookupA_eq_none_iff]
    intro hmem
    have hsub := List.Sublist.map Prod.fst
      (removePhase_sublist defined (ensurePhase env s.registry s.chans defined).1
        (ensurePhase env s.registry s.chans defined).2.1)
    exact (lookupA_eq_none_iff _ n0).mp habs (hsub.subset hmem)
  · exact List.mem_cons_of_mem _
      (List.mem_append_left _
        (ensurePhase_logs_failure env defined s.registry s.chans n0 c0 h0in h0un hall))
  · have hreg1 := ensurePhase_registers env defined s.registry s.chans n c hin hok
    rcases Option.isSome_iff_exists.mp hreg1 with ⟨chn, hchn⟩
    have hmem1 := lookupA_mem hchn
    have hdef : (lookupA defined n).isSome = true := lookupA_isSome_of_mem hin
    have hkeep := removePhase_keep_mem defined
      (ensurePhase env s.registry s.chans defined).1
      (ensurePhase env s.registry s.chans defined).2.1 (n, chn) hmem1 hdef
    exact lookupA_isSome_of_mem hkeep
  · intro p hp hnone
    have hp1 : p ∈ (ensurePhase env s.registry s.chans defined).1 := by
      rw [h1]
      exact List.mem_append_left _ hp
    exact List.mem_append_left _ (removePhase_close_mem defined _ _ p hp1 hnone)
  · intro p hp
    rcases notifyPhase_sends _ _ p hp with ⟨op, hop, hatt⟩
    exact ⟨op, List.mem_append_right _ hop, hatt⟩

theorem C7_factory_failure_isolated_witness :
    (([("bad", Cluster.mk 1), ("b", Cluster.mk 2)].map
        (Prod.fst (β := Cluster))).Nodup) ∧
    ("bad", Cluster.mk 1) ∈ [("bad", Cluster.mk 1), ("b", Cluster.mk 2)] ∧
    factoryOk envSample "bad" (Cluster.mk 1) = false ∧
    lookupA (MccState.mk [] []).registry "bad" = none ∧
    ("b", Cluster.mk 2) ∈ [("bad", Cluster.mk 1), ("b", Cluster.mk 2)] ∧
    factoryOk envSample "b" (Cluster.mk 2) = true ∧
    (lookupA (step envSample (MccState.mk [] [])
        (Event.tick (some [("bad", Cluster.mk 1), ("b", Cluster.mk 2)]))).state.registry
        "bad" = none ∧
     (lookupA (step envSample (MccState.mk [] [])
        (Event.tick (some [("bad", Cluster.mk 1), ("b", Cluster.mk 2)]))).state.registry
        "b").isSome = true) :=
  ⟨by decide, by decide, by decide, by decide, by decide, by decide,
   have h := C7_factory_failure_isolated envSample (MccState.mk [] [])
     [("bad", Cluster.mk 1), ("b", Cluster.mk 2)] "bad" "b" (Cluster.mk 1)
     (Cluster.mk 2) (by decide) (by decide) (by decide) (by decide) (by decide)
     (by decide)
   ⟨h.1, h.2.2.1⟩⟩

/-- C3: in every execution of the loop from a well-formed state, once a
channel has been closed (watch deletion, tick removal, or shutdown), no
notification send is ever attempted on it at any later point of the
trace; in particular a tick's stale-entry removal precedes its
notification sweep and a watch-deletion step sends nothing after
closing. -/
theorem C3_no_send_after_close (env : Env) (s : MccState) (evs : List Event)
    (hWF : WF s) (c i j : Nat) (op : ChanOp) (hij : i < j)
    (hi : (runLoop env s evs).ops.get? i = some (ChanOp.close c))
    (hj : (runLoop env s evs).ops.get? j = some op) :
    isSendAttempt op c = false :=
  runLoop_close_then_no_send env evs s hWF c i j op hij hi hj

theorem C3_no_send_after_close_witness :
    WF (MccState.mk [("a", 0)] [mkChan]) ∧ (0 : Nat) < 1 ∧
    (runLoop envSample (MccState.mk [("a", 0)] [mkChan])
      [Event.watch "a" none, Event.tick (some [("b", Cluster.mk 2)])]).ops.get? 0 =
        some (ChanOp.close 0) ∧
    (runLoop envSample (MccState.mk [("a", 0)] [mkChan])
      [Event.watch "a" none, Event.tick (some [("b", Cluster.mk 2)])]).ops.get? 1 =
        some (ChanOp.send 1) ∧
    isSendAttempt (ChanOp.send 1) 0 = false :=
  ⟨by decide, by decide, by decide, by decide,
   C3_no_send_after_close envSample (MccState.mk [("a", 0)] [mkChan])
     [Event.watch "a" none, Event.tick (some [("b", Cluster.mk 2)])]
     (by decide) 0 0 1 (ChanOp.send 1) (by decide) (by decide) (by decide)⟩

theorem count_map_close (l : List Nat) (c : Nat) :
    (l.map ChanOp.close).count (ChanOp.close c) = l.count c := by
  induction l with
  | nil => rfl
  | cons x rest ih =>
    by_cases h : x = c
    · subst h
      simp [List.count_cons, ih]
    · have hne : ChanOp.close x ≠ ChanOp.close c := by
        intro he
        injection he with he'
        exact h he'
      simp [List.count_cons, h, hne, ih]

/-- C4 as stated is false on the code: the shutdown arm closes every
channel and returns, but does not delete the registry entries — here the
entry ("a", 0) is still in the map after shutdown processing. -/
theorem C4_counterexample :
    (step envSample (MccState.mk [("a", 0)] [mkChan]) Event.shutdown).state.registry
      = [("a", 0)] ∧
    lookupA (step envSample (MccState.mk [("a", 0)] [mkChan])
        Event.shutdown).state.registry "a" = some 0 ∧
    (step envSample (MccState.mk [("a", 0)] [mkChan]) Event.shutdown).returned
      = true :=
  ⟨rfl, by decide, rfl⟩

/-- C4 (amended): on the shutdown signal the loop closes the channel of
every registered worker, each exactly once, and returns, processing no
further watch events or ticks; the registry map entries themselves are
not deleted (the loop terminates instead). -/
theorem C4_amended_shutdown (env : Env) (s : MccState) (rest : List Event)
    (hWF : WF s) :
    (step env s Event.shutdown).ops =
      s.registry.map (fun q => ChanOp.close q.2) ∧
    (∀ p ∈ s.registry, chClosed (step env s Event.shutdown).state.chans p.2 = true) ∧
    (∀ p ∈ s.registry,
      (step env s Event.shutdown).ops.count (ChanOp.close p.2) = 1) ∧
    (step env s Event.shutdown).state.registry = s.registry ∧
    (step env s Event.shutdown).returned = true ∧
    runLoop env s (Event.shutdown :: rest) =
      { state := (step env s Event.shutdown).state,
        ops := (step env s Event.shutdown).ops,
        logs := (step env s Event.shutdown).logs, stopped := true } := by
  obtain ⟨hopen, hsnd, hfst⟩ := hWF
  refine ⟨rfl, ?_, ?_, rfl, rfl, runLoop_cons_returned env s Event.shutdown rest rfl⟩
  · intro p hp
    exact chClosed_closeAll_self s.registry s.chans p hp
      (chanOpen_lt s.chans p.2 (hopen p hp))
  · intro p hp
    show (s.registry.map (fun q => ChanOp.close q.2)).count (ChanOp.close p.2) = 1
    have hmap : s.registry.map (fun q => ChanOp.close q.2) =
        (s.registry.map Prod.snd).map ChanOp.close := by
      rw [List.map_map]
      rfl
    rw [hmap, count_map_close]
    exact List.count_eq_one_of_mem hsnd (List.mem_map_of_mem Prod.snd hp)

theorem C4_amended_shutdown_witness :
    WF (MccState.mk [("a", 0)] [mkChan]) ∧
    (∀ p ∈ (MccState.mk [("a", 0)] [mkChan]).registry,
      (step envSample (MccState.mk [("a", 0)] [mkChan]) Event.shutdown).ops.count
        (ChanOp.close p.2) = 1) ∧
    (step envSample (MccState.mk [("a", 0)] [mkChan]) Event.shutdown).returned
      = true :=
  ⟨by decide,
   have h := C4_amended_shutdown envSample (MccState.mk [("a", 0)] [mkChan]) []
     (by decide)
   ⟨h.2.2.1, h.2.2.2.2.1⟩⟩

/-- C8: the worker factory performs, in order: (a) create the cluster's
workspace subdirectory (one per cluster name under the configured root,
owner-only mode 0700), (b) create the log file `kismatic.log` inside it,
(c) construct the executor bound to that workspace and log file.  A
failing step aborts construction with a single descriptive error and no
later step is performed; a factory failure at the loop's watch call site
leaves the state (hence the registry) unmutated. -/
theorem C8_factory_contract (env : Env) (name : String) (c : Cluster) :
    (∀ e, env.mkdirAll (forCluster env.assetsDir name) = Except.error e →
      newClusterController env name c =
        (Except.error ("error creating assets directory: " ++ e),
         [FsOp.mkdir (forCluster env.assetsDir name) 0o700])) ∧
    (∀ e, env.mkdirAll (forCluster env.assetsDir name) = Except.ok () →
      env.createFile (joinPath (forCluster env.assetsDir name) "kismatic.log") =
        Except.error e →
      newClusterController env name c =
        (Except.error ("error creating log file: " ++ e),
         [FsOp.mkdir (forCluster env.assetsDir name) 0o700,
          FsOp.createFile (joinPath (forCluster env.assetsDir name) "kismatic.log")])) ∧
    (∀ f e, env.mkdirAll (forCluster env.assetsDir name) = Except.ok () →
      env.createFile (joinPath (forCluster env.assetsDir name) "kismatic.log") =
        Except.ok f →
      env.newExecutor name (forCluster env.assetsDir name) f = Except.error e →
      newClusterController env name c =
        (Except.error ("error creating executor: " ++ e),
         [FsOp.mkdir (forCluster env.assetsDir name) 0o700,
          FsOp.createFile (joinPath (forCluster env.assetsDir name) "kismatic.log"),
          FsOp.mkExec name (forCluster env.assetsDir name) f])) ∧
    (∀ f ex, env.mkdirAll (forCluster env.assetsDir name) = Except.ok () →
      env.createFile (joinPath (forCluster env.assetsDir name) "kismatic.log") =
        Except.ok f →
      env.newExecutor name (forCluster env.assetsDir name) f = Except.ok ex →
      newClusterController env name c =
        (Except.ok
          { log := (), clusterName := name, clusterSpec := c.spec,
            clusterAssetsDir := forCluster env.assetsDir name, logFile := f,
            executor := ex, clusterStore := (), newProvisioner := () },
         [FsOp.mkdir (forCluster env.assetsDir name) 0o700,
          FsOp.createFile (joinPath (forCluster env.assetsDir name) "kismatic.log"),
          FsOp.mkExec name (forCluster env.assetsDir name) f])) ∧
    (∀ (s : MccState) (key : String) (v : Option WireValue) (cl : Cluster)
        (e : String) (fs : List FsOp),
      lookupA s.registry key = none → jsonUnmarshal v = Except.ok cl →
      newClusterController env key cl = (Except.error e, fs) →
      (step env s (Event.watch key v)).state = s) := by
  refine ⟨?_, ?_, ?_, ?_, ?_⟩
  · intro e he
    simp only [newClusterController, he]
  · intro e h1 h2
    simp only [newClusterController, h1, h2]
  · intro f e h1 h2 h3
    simp only [newClusterController, h1, h2, h3]
  · intro f ex h1 h2 h3
    simp only [newClusterController, h1, h2, h3]
  · intro s key v cl e fs h1 h2 h3
    rw [show step env s (Event.watch key v) = handleWatch env s key v from rfl,
      handleWatch_factory_err env s key v cl e fs h1 h2 h3]

theorem C8_factory_contract_witness :
    envSample.mkdirAll (forCluster envSample.assetsDir "bad") =
      Except.error "boom" ∧
    newClusterController envSample "bad" (Cluster.mk 1) =
      (Except.error ("error creating assets directory: " ++ "boom"),
       [FsOp.mkdir (forCluster envSample.assetsDir "bad") 0o700]) :=
  ⟨rfl, (C8_factory_contract envSample "bad" (Cluster.mk 1)).1 "boom" rfl⟩

/-- C9: every notification channel is created with capacity exactly 10
(`clusterControllerNotificationBuffer`); this capacity is an invariant of
the pool across every event; and a send attempted on a channel already
holding a full buffer is dropped and logged, leaving the state — channel
contents and registry — exactly unchanged, with the loop continuing. -/
theorem C9_capacity_and_nonblocking_drop (env : Env) (s : MccState) (key : String)
    (ch : Nat) (st : ChanState) (w : WireValue)
    (hl : lookupA s.registry key = some ch)
    (hg : s.chans.get? ch = some st)
    (hfull : st.cap ≤ st.pending) :
    clusterControllerNotificationBuffer = 10 ∧
    mkChan.cap = clusterControllerNotificationBuffer ∧
    (∀ e, capsOk s.chans → capsOk (step env s e).state.chans) ∧
    step env s (Event.watch key (some w)) =
      { state := s, ops := [ChanOp.drop ch], logs := [LogMsg.bufferFull key],
        fsOps := [], returned := false } := by
  refine ⟨rfl, rfl, ?_, ?_⟩
  · intro e hc
    exact step_capsOk env s e hc
  · rw [show step env s (Event.watch key (some w)) = handleWatch env s key (some w)
      from rfl, handleWatch_notify env s key ch w hl,
      trySend_eq_full s.chans ch st hg (by omega)]

theorem C9_capacity_and_nonblocking_drop_witness :
    lookupA (MccState.mk [("a", 0)] [ChanState.mk 10 false 10]).registry "a" =
      some 0 ∧
    (MccState.mk [("a", 0)] [ChanState.mk 10 false 10]).chans.get? 0 =
      some (ChanState.mk 10 false 10) ∧
    (ChanState.mk 10 false 10).cap ≤ (ChanState.mk 10 false 10).pending ∧
    step envSample (MccState.mk [("a", 0)] [ChanState.mk 10 false 10])
      (Event.watch "a" (some WireValue.bad)) =
      { state := MccState.mk [("a", 0)] [ChanState.mk 10 false 10],
        ops := [ChanOp.drop 0], logs := [LogMsg.bufferFull "a"], fsOps := [],
        returned := false } :=
  ⟨by decide, by decide, by decide,
   (C9_capacity_and_nonblocking_drop envSample
     (MccState.mk [("a", 0)] [ChanState.mk 10 false 10]) "a" 0
     (ChanState.mk 10 false 10) WireValue.bad (by decide) (by decide)
     (by decide)).2.2.2⟩

end Kismatic
